import Mathlib

/-
Verification development for the BiocHubsAPI migration engine
(src/hubs_api/migrate.py, class DataMigrator).

The Python code is shallowly embedded: SQLite source tables become lists of
records, the PostgreSQL target store becomes a record of lists, the per-run
dedup caches become association lists, and each migration step becomes a
total Lean function returning Except (database integrity errors and Python
ValueError are the error cases).  SQL queries are modelled by explicit list
operations; comments on each definition note the correspondence and any
deliberate restriction of the modelled domain.
-/

namespace HubsMigrate

/-! ## Python string primitives -/

/-- Whitespace characters recognised by Python's str.strip and the regex
class backslash-s, restricted to ASCII: space, tab, newline, carriage
return, vertical tab, form feed.  (Python additionally strips non-ASCII
Unicode whitespace; no claim exercises those characters.) -/
def isPySpace (c : Char) : Bool :=
  c = ' ' || c = '\t' || c = '\n' || c = '\r' || c = '\x0b' || c = '\x0c'

/-- Python str.strip: drop leading and trailing whitespace. -/
def pyStripChars (l : List Char) : List Char :=
  ((l.dropWhile isPySpace).reverse.dropWhile isPySpace).reverse

/-- Python str.strip on a String. -/
def pyStrip (s : String) : String :=
  ⟨pyStripChars s.data⟩

/-- Python truthiness of an optional string: None and the empty string are
falsy. -/
def strTruthy : Option String → Bool
  | none => false
  | some s => !(s = "")

/-- Python truthiness of an optional integer: None and 0 are falsy. -/
def intTruthy : Option Int → Bool
  | none => false
  | some i => !(i = 0)

/-! ## The maintainer-string regular expressions

parse_maintainer_email (migrate.py lines 67-96) matches, in order, the
patterns "caret (.+?) backslash-s-star < (.+?) > dollar" and
"caret < (.+?) > dollar" against the stripped input.  The matchers below
implement the backtracking semantics of those two patterns directly:
dot matches any character except newline, the lazy groups take the
shortest match that lets the rest of the pattern succeed, and the dollar
anchor accepts the end of the string or a final lone newline. -/

/-- The regex dollar anchor: end of input, or a single trailing newline. -/
def endAnchorB : List Char → Bool
  | [] => true
  | [c] => c = '\n'
  | _ => false

/-- Matching "(.+?) > dollar" with the group already begun as accRev
(reversed).  The lazy group extends one character at a time until the next
character is a literal > whose remainder satisfies the dollar anchor; the
group cannot contain a newline. -/
def tmGo (accRev : List Char) : List Char → Option (List Char)
  | [] => none
  | c :: t =>
    if c = '>' && endAnchorB t then some accRev.reverse
    else if c = '\n' then none
    else tmGo (c :: accRev) t

/-- Matching "(.+?) > dollar" against a remainder: the group needs at least
one character. -/
def tailMatch : List Char → Option (List Char)
  | [] => none
  | c :: t => if c = '\n' then none else tmGo [c] t

/-- One candidate split for "caret (.+?) backslash-s-star < (.+?) >
dollar": with group 1 fixed as aRev (reversed), the whitespace run that
follows must end exactly at a literal < and the remainder must complete
the pattern. -/
def goAttempt (aRev : List Char) (rest : List Char) : Option (List Char × List Char) :=
  match rest.dropWhile isPySpace with
  | '<' :: t2 => (tailMatch t2).map (fun g => (aRev.reverse, g))
  | _ => none

/-- The backtracking search for "caret (.+?) backslash-s-star < (.+?) >
dollar" with group 1 already begun as aRev (reversed): try the current
candidate, else extend group 1 by one (non-newline) character.  On an
empty remainder the candidate attempt cannot match (there is no literal <
left), so the search fails. -/
def goA (aRev : List Char) : List Char → Option (List Char × List Char)
  | [] => none
  | c :: t =>
    match goAttempt aRev (c :: t) with
    | some r => some r
    | none => if c = '\n' then none else goA (c :: aRev) t

/-- re.match of "caret (.+?) backslash-s-star < (.+?) > dollar", returning
(group 1, group 2) on success. -/
def matchNameAngle : List Char → Option (List Char × List Char)
  | [] => none
  | c :: t => if c = '\n' then none else goA [c] t

/-- re.match of "caret < (.+?) > dollar", returning group 1 on success. -/
def matchAngle : List Char → Option (List Char)
  | '<' :: t => tailMatch t
  | _ => none

/-- DataMigrator.parse_maintainer_email (migrate.py lines 67-96).
Input None or the empty string is falsy and yields (None, None); otherwise
the two regexes are tried against the stripped input, then a plain string
containing an at sign is taken whole as the email, and anything else
degrades to (None, None).  The function is total by construction: it
returns a pair on every input and has no failure case. -/
def parse_maintainer_email (maintainer : Option String) : Option String × Option String :=
  match maintainer with
  | none => (none, none)
  | some m =>
    if m = "" then (none, none)
    else
      let s := pyStrip m
      match matchNameAngle s.data with
      | some (g1, g2) =>
        let name := pyStrip ⟨g1⟩
        ((if name = "" then none else some name), some (pyStrip ⟨g2⟩))
      | none =>
        match matchAngle s.data with
        | some g => (none, some (pyStrip ⟨g⟩))
        | none =>
          if m.data.contains '@' then (none, some (pyStrip m)) else (none, none)

/-! ## Generic list and dictionary utilities

Python dicts are modelled as association lists: lookup takes the first
matching key, assignment overwrites in place or appends.  SQL DISTINCT is
first-appearance deduplication, SQL ORDER BY is a stable insertion sort. -/

/-- Boolean list membership via decidable equality. -/
def memB [DecidableEq α] (a : α) : List α → Bool
  | [] => false
  | b :: t => if b = a then true else memB a t

/-- A list has no duplicate elements. -/
def dupFree [DecidableEq α] : List α → Bool
  | [] => true
  | a :: t => !memB a t && dupFree t

/-- Python dict lookup (d.get(k) / d[k]): first matching key. -/
def dictGet [DecidableEq κ] : List (κ × β) → κ → Option β
  | [], _ => none
  | (k₀, v) :: t, k => if k₀ = k then some v else dictGet t k

/-- Python dict assignment d[k] = v: overwrite the first matching key or
append at the end. -/
def dictSet [DecidableEq κ] : List (κ × β) → κ → β → List (κ × β)
  | [], k, v => [(k, v)]
  | (k₀, v₀) :: t, k, v => if k₀ = k then (k, v) :: t else (k₀, v₀) :: dictSet t k v

/-- SQL DISTINCT: keep the first occurrence of each value, accumulating the
already-seen values. -/
def dedupFirstGo [DecidableEq α] (seen : List α) : List α → List α
  | [] => []
  | a :: t => if memB a seen then dedupFirstGo seen t else a :: dedupFirstGo (a :: seen) t

/-- SQL DISTINCT over a list of values. -/
def dedupFirst [DecidableEq α] (l : List α) : List α :=
  dedupFirstGo [] l

/-- Insert into a sorted list, after all elements that compare
less-or-equal (a stable insertion). -/
def insertLe (le : α → α → Bool) (a : α) : List α → List α
  | [] => [a]
  | b :: t => if le b a then b :: insertLe le a t else a :: b :: t

/-- Stable insertion sort; models SQL ORDER BY under a total preorder. -/
def sortByLe (le : α → α → Bool) (l : List α) : List α :=
  l.foldl (fun acc a => insertLe le a acc) []

/-- Byte-wise (here: code-point-wise) lexicographic order on character
lists; SQLite's BINARY collation for the ASCII strings of this catalog. -/
def lexLe : List Char → List Char → Bool
  | [], _ => true
  | _ :: _, [] => false
  | a :: as, b :: bs =>
    if a.toNat < b.toNat then true
    else if b.toNat < a.toNat then false
    else lexLe as bs

/-- SQLite ORDER BY on a text column. -/
def strLe (a b : String) : Bool := lexLe a.data b.data

/-- SQLite ORDER BY on an integer column. -/
def intLe (a b : Int) : Bool := a ≤ b

/-! ## Python datetimes

Only the fields needed to state the claims are modelled; values compare by
structural equality. -/

/-- A parsed Python datetime (naive, microsecond precision). -/
structure PyDateTime where
  year : Nat
  month : Nat
  day : Nat
  hour : Nat
  minute : Nat
  second : Nat
  micro : Nat
deriving DecidableEq, Repr

/-- ASCII digit test. -/
def isDigitB (c : Char) : Bool := 48 ≤ c.toNat && c.toNat ≤ 57

/-- Digit value of an ASCII digit. -/
def digitVal (c : Char) : Nat := c.toNat - 48

/-- Read exactly two ASCII digits. -/
def take2Digits : List Char → Option (Nat × List Char)
  | a :: b :: t =>
    if isDigitB a && isDigitB b then some (digitVal a * 10 + digitVal b, t) else none
  | _ => none

/-- Read exactly four ASCII digits. -/
def take4Digits : List Char → Option (Nat × List Char)
  | a :: b :: c :: d :: t =>
    if isDigitB a && isDigitB b && isDigitB c && isDigitB d then
      some (digitVal a * 1000 + digitVal b * 100 + digitVal c * 10 + digitVal d, t)
    else none
  | _ => none

/-- Read a run of one to six ASCII digits as a fractional-second field,
requiring the end of input after it. -/
def takeFraction : List Char → Option Nat
  | l =>
    let digits := l.takeWhile isDigitB
    if l.dropWhile isDigitB = [] && 1 ≤ digits.length && digits.length ≤ 6 then
      some (digits.foldl (fun n c => n * 10 + digitVal c) 0)
    else none

/-- The time-of-day part of an ISO string: HH, optionally colon MM,
optionally colon SS, optionally a dot and one to six fractional digits. -/
def parseIsoTime (l : List Char) : Option (Nat × Nat × Nat × Nat) := do
  let (h, rest) ← take2Digits l
  if 23 < h then none else
  match rest with
  | [] => some (h, 0, 0, 0)
  | ':' :: rest2 => do
    let (mi, rest3) ← take2Digits rest2
    if 59 < mi then none else
    match rest3 with
    | [] => some (h, mi, 0, 0)
    | ':' :: rest4 => do
      let (s, rest5) ← take2Digits rest4
      if 59 < s then none else
      match rest5 with
      | [] => some (h, mi, s, 0)
      | '.' :: rest6 => do
        let f ← takeFraction rest6
        some (h, mi, s, f)
      | _ => none
    | _ => none
  | _ => none

/-- datetime.fromisoformat on a character list: YYYY-MM-DD, optionally
followed by a single separator character and a time of day.  The modelled
domain excludes timezone offsets and approximates the day-of-month upper
bound as 31 (Python checks the exact month length); no claim depends on
either corner.  Failure models Python raising ValueError. -/
def fromisoformatChars (l : List Char) : Option PyDateTime := do
  let (y, r1) ← take4Digits l
  match r1 with
  | '-' :: r2 => do
    let (mo, r3) ← take2Digits r2
    if mo < 1 || 12 < mo then none else
    match r3 with
    | '-' :: r4 => do
      let (d, r5) ← take2Digits r4
      if d < 1 || 31 < d then none else
      match r5 with
      | [] => some ⟨y, mo, d, 0, 0, 0, 0⟩
      | _sep :: r6 => do
        let (h, mi, s, f) ← parseIsoTime r6
        some ⟨y, mo, d, h, mi, s, f⟩
    | _ => none
  | _ => none

/-- datetime.fromisoformat on a String. -/
def fromisoformat (s : String) : Option PyDateTime :=
  fromisoformatChars s.data

/-! ## The SQLite source schema

One record type per source table, with exactly the columns migrate.py
reads.  Nullable columns are Options; a Snapshot is one hub's database. -/

/-- A row of the source resources table. -/
structure SrcResource where
  id : Int
  ah_id : String
  title : Option String
  description : Option String
  dataprovider : Option String
  species : Option String
  taxonomyid : Option Int
  genome : Option String
  coordinate_1_based : Option Int
  maintainer : Option String
  rdatadateadded : Option String
  rdatadateremoved : Option String
  preparerclass : Option String
  recipe_id : Option Int
  status_id : Option Int
deriving DecidableEq, Repr

/-- A row of the source tags table. -/
structure SrcTag where
  resource_id : Int
  tag : Option String
deriving DecidableEq, Repr

/-- A row of the source rdatapaths table. -/
structure SrcRdatapath where
  resource_id : Int
  rdatapath : Option String
  rdataclass : Option String
  dispatchclass : Option String
deriving DecidableEq, Repr

/-- A row of the source input_sources table. -/
structure SrcInputSource where
  resource_id : Int
  sourceurl : Option String
  sourcetype : Option String
  sourceversion : Option String
  sourcemd5 : Option String
  sourcesize : Option String
  sourcelastmodifieddate : Option String
deriving DecidableEq, Repr

/-- A row of the source biocversions table. -/
structure SrcBiocVersion where
  resource_id : Int
  biocversion : Option String
deriving DecidableEq, Repr

/-- A row of the source recipes table. -/
structure SrcRecipe where
  id : Int
  recipe : Option String
  package : Option String
deriving DecidableEq, Repr

/-- A row of the source location_prefixes table (the URL column is named
location_prefix in the source schema). -/
structure SrcLocationRow where
  id : Int
  locationUrl : Option String
deriving DecidableEq, Repr

/-- One hub's SQLite snapshot. -/
structure Snapshot where
  resources : List SrcResource
  tags : List SrcTag
  rdatapaths : List SrcRdatapath
  input_sources : List SrcInputSource
  biocversions : List SrcBiocVersion
  recipes : List SrcRecipe
  locations : List SrcLocationRow
deriving DecidableEq, Repr

/-! ## The PostgreSQL target schema

One record type per target table (models.py), restricted to the columns the
migrator writes plus the columns of each unique constraint.  Surrogate ids
are assigned at flush as table length + 1, mirroring a per-table identity
sequence on an insert-only table. -/

/-- A species row (unique scientific_name, unique taxonomy_id). -/
structure SpeciesRow where
  id : Nat
  scientific_name : String
  taxonomy_id : Int
deriving DecidableEq, Repr

/-- A genome row (unique (species_id, genome_build)). -/
structure GenomeRow where
  id : Nat
  species_id : Nat
  genome_build : String
deriving DecidableEq, Repr

/-- A data-provider row (unique name). -/
structure DataProviderRow where
  id : Nat
  name : String
deriving DecidableEq, Repr

/-- A user row (unique email). -/
structure UserRow where
  id : Nat
  email : String
  full_name : Option String
  role : String
deriving DecidableEq, Repr

/-- A recipe row (unique name). -/
structure RecipeRow where
  id : Nat
  name : String
  package_name : Option String
  preparer_class : Option String
deriving DecidableEq, Repr

/-- A storage-location row (unique name). -/
structure StorageLocationRow where
  id : Nat
  name : String
  location_type : String
  base_url : Option String
deriving DecidableEq, Repr

/-- A tag row (unique tag text). -/
structure TagRow where
  id : Nat
  tag : String
deriving DecidableEq, Repr

/-- A resource-status reference row (unique status text). -/
structure ResourceStatusRow where
  id : Nat
  status : String
deriving DecidableEq, Repr

/-- A Bioconductor release reference row (unique version text). -/
structure BiocReleaseRow where
  id : Nat
  version : String
deriving DecidableEq, Repr

/-- A resource row; unique (hub_id, hub_accession, version_number), and
version_number takes its server default 1 since the migrator never sets
it.  The id field is a placeholder until the row is flushed. -/
structure ResourceRow where
  id : Nat
  hub_id : Nat
  hub_accession : String
  title : Option String
  description : Option String
  species_id : Option Nat
  genome_id : Option Nat
  coordinate_1_based : Option Bool
  data_provider_id : Option Nat
  recipe_id : Option Nat
  maintainer_id : Option Nat
  status_id : Nat
  created_at : PyDateTime
  valid_from : PyDateTime
  deleted_at : Option PyDateTime
  version_number : Nat
deriving DecidableEq, Repr

/-- A resource-tag junction row (composite primary key). -/
structure ResourceTagRow where
  resource_id : Nat
  tag_id : Nat
deriving DecidableEq, Repr

/-- A resource-file row; unique (resource_id, file_path, valid_from), where
valid_from takes the server default, the transaction timestamp of the run
that inserts it. -/
structure ResourceFileRow where
  id : Nat
  resource_id : Nat
  file_path : Option String
  rdata_class : Option String
  dispatch_class : Option String
  valid_from : PyDateTime
deriving DecidableEq, Repr

/-- A source-file row (no unique constraint beyond its id). -/
structure SourceFileRow where
  id : Nat
  resource_id : Nat
  source_url : Option String
  source_type : Option String
  source_version : Option String
  md5_hash : Option String
  file_size_bytes : Option Int
  last_modified_date : Option PyDateTime
deriving DecidableEq, Repr

/-- A resource-Bioconductor-version junction row (composite primary key). -/
structure ResourceBiocVersionRow where
  resource_id : Nat
  bioc_release_id : Nat
deriving DecidableEq, Repr

/-- The committed content of the target store. -/
structure Store where
  species : List SpeciesRow
  genomes : List GenomeRow
  data_providers : List DataProviderRow
  users : List UserRow
  recipes : List RecipeRow
  storage_locations : List StorageLocationRow
  tags : List TagRow
  resource_statuses : List ResourceStatusRow
  bioc_releases : List BiocReleaseRow
  resources : List ResourceRow
  resource_tags : List ResourceTagRow
  resource_files : List ResourceFileRow
  source_files : List SourceFileRow
  resource_bioc_versions : List ResourceBiocVersionRow
deriving DecidableEq, Repr

/-- A target store with every table empty. -/
def emptyStore : Store :=
  ⟨[], [], [], [], [], [], [], [], [], [], [], [], [], []⟩

/-- The in-memory dedup caches of a DataMigrator instance (migrate.py
lines 56-65), one association list per entity kind. -/
structure Caches where
  species_cache : List (String × Nat)
  genome_cache : List ((String × String) × Nat)
  provider_cache : List (String × Nat)
  user_cache : List (String × Nat)
  recipe_cache : List (String × Nat)
  storage_cache : List (String × Nat)
  tag_cache : List (String × Nat)
  status_cache : List (String × Nat)
  bioc_release_cache : List (String × Nat)
deriving DecidableEq, Repr

/-- The empty caches of a freshly constructed DataMigrator. -/
def emptyCaches : Caches :=
  ⟨[], [], [], [], [], [], [], [], []⟩

/-! ## Database uniqueness constraints

Each check models the enforcement, at flush time, of the corresponding
unique constraint or composite primary key declared in models.py.  The
insert-only store makes a flush legal exactly when the constrained key
column tuples are pairwise distinct. -/

/-- Unique constraints of the species table: scientific_name and
taxonomy_id are each unique. -/
def speciesCheckB (st : Store) : Bool :=
  dupFree (st.species.map (·.scientific_name)) && dupFree (st.species.map (·.taxonomy_id))

/-- Unique constraint uq_species_genome_build. -/
def genomesCheckB (st : Store) : Bool :=
  dupFree (st.genomes.map (fun g => (g.species_id, g.genome_build)))

/-- Unique constraint on data-provider names. -/
def providersCheckB (st : Store) : Bool :=
  dupFree (st.data_providers.map (·.name))

/-- Unique constraint on user emails. -/
def usersCheckB (st : Store) : Bool :=
  dupFree (st.users.map (·.email))

/-- Unique constraint on recipe names. -/
def recipesCheckB (st : Store) : Bool :=
  dupFree (st.recipes.map (·.name))

/-- Unique constraint on storage-location names. -/
def storagesCheckB (st : Store) : Bool :=
  dupFree (st.storage_locations.map (·.name))

/-- Unique constraint on tag text. -/
def tagsCheckB (st : Store) : Bool :=
  dupFree (st.tags.map (·.tag))

/-- Unique constraint uq_hub_accession_version on resources. -/
def resourcesCheckB (st : Store) : Bool :=
  dupFree (st.resources.map (fun r => (r.hub_id, r.hub_accession, r.version_number)))

/-- Composite primary key of resource_tags. -/
def resourceTagsCheckB (st : Store) : Bool :=
  dupFree (st.resource_tags.map (fun r => (r.resource_id, r.tag_id)))

/-- Unique constraint uq_resource_file_path_valid on resource_files. -/
def resourceFilesCheckB (st : Store) : Bool :=
  dupFree (st.resource_files.map (fun r => (r.resource_id, r.file_path, r.valid_from)))

/-- Composite primary key of resource_bioc_versions. -/
def resourceBiocCheckB (st : Store) : Bool :=
  dupFree (st.resource_bioc_versions.map (fun r => (r.resource_id, r.bioc_release_id)))

/-! ## Store lookups

Each models one of the SQLAlchemy select statements in migrate.py;
scalar_one_or_none with a unique key, or a query with limit(1), both
return the first matching row. -/

/-- select Species where taxonomy_id given. -/
def findSpeciesByTaxonomy : List SpeciesRow → Int → Option SpeciesRow
  | [], _ => none
  | r :: t, tid => if r.taxonomy_id = tid then some r else findSpeciesByTaxonomy t tid

/-- select Species where id given (the join in load_caches). -/
def findSpeciesById : List SpeciesRow → Nat → Option SpeciesRow
  | [], _ => none
  | r :: t, i => if r.id = i then some r else findSpeciesById t i

/-- select Genome where species_id and genome_build given. -/
def findGenomeByKey : List GenomeRow → Nat → String → Option GenomeRow
  | [], _, _ => none
  | r :: t, sid, gb =>
    if r.species_id = sid ∧ r.genome_build = gb then some r else findGenomeByKey t sid gb

/-- select DataProvider where name given. -/
def findProviderByName : List DataProviderRow → String → Option DataProviderRow
  | [], _ => none
  | r :: t, n => if r.name = n then some r else findProviderByName t n

/-- select User where email given. -/
def findUserByEmail : List UserRow → String → Option UserRow
  | [], _ => none
  | r :: t, e => if r.email = e then some r else findUserByEmail t e

/-- select Recipe where name given. -/
def findRecipeByName : List RecipeRow → String → Option RecipeRow
  | [], _ => none
  | r :: t, n => if r.name = n then some r else findRecipeByName t n

/-- select StorageLocation where name given. -/
def findStorageByName : List StorageLocationRow → String → Option StorageLocationRow
  | [], _ => none
  | r :: t, n => if r.name = n then some r else findStorageByName t n

/-- Scan of the resources table for a (hub_id, hub_accession) match. -/
def findResourceGo : List ResourceRow → Nat → String → Option ResourceRow
  | [], _, _ => none
  | r :: t, hub, acc =>
    if r.hub_id = hub ∧ r.hub_accession = acc then some r else findResourceGo t hub acc

/-- select Resource where hub_id and hub_accession given, limit 1. -/
def findResource (st : Store) (hub : Nat) (acc : String) : Option ResourceRow :=
  findResourceGo st.resources hub acc

/-! ## Species extraction (migrate.py lines 149-199)

The SQL query groups resources rows by (taxonomyid, species), counts each
group, and orders by taxonomyid ascending then count descending (the order
among equal counts is unspecified by SQLite; the model keeps first
appearance, which any fixed choice of the claims below tolerates).  The
Python loop then keeps the first cursor row per taxonomy id. -/

/-- The (species, taxonomyid) pairs of the rows where both are non-null. -/
def speciesPairs (rows : List SrcResource) : List (String × Int) :=
  rows.filterMap fun r =>
    match r.species, r.taxonomyid with
    | some s, some t => some (s, t)
    | _, _ => none

/-- Occurrence count of a value in a list (SQL COUNT within a group). -/
def countOcc [DecidableEq α] (k : α) : List α → Nat
  | [] => 0
  | x :: t => (if x = k then 1 else 0) + countOcc k t

/-- SQL GROUP BY with COUNT over a list of keys: one entry per distinct
key carrying its occurrence count (group order before the subsequent sort
is immaterial: the later ORDER BY fixes it up to ties, whose order SQLite
leaves unspecified). -/
def groupCounts [DecidableEq α] (l : List α) : List (α × Nat) :=
  (dedupFirst l).map (fun k => (k, countOcc k l))

/-- The ORDER BY of the species query: taxonomyid ascending, then count
descending. -/
def leTidCnt (a b : (String × Int) × Nat) : Bool :=
  a.1.2 < b.1.2 || (a.1.2 = b.1.2 && b.2 ≤ a.2)

/-- The species cursor: grouped, counted, sorted rows. -/
def speciesCursor (rows : List SrcResource) : List ((String × Int) × Nat) :=
  sortByLe leTidCnt (groupCounts (speciesPairs rows))

/-- The Python loop over the cursor: record the first (hence
highest-count) species name seen for each taxonomy id. -/
def firstPerTid (seen : List Int) : List ((String × Int) × Nat) → List (String × Int)
  | [] => []
  | ((nm, t), _) :: rest =>
    if memB t seen then firstPerTid seen rest
    else (nm, t) :: firstPerTid (t :: seen) rest

/-- The species_data list of migrate.py line 164: one canonical
(name, taxonomy id) pair per distinct taxonomy id. -/
def species_data (rows : List SrcResource) : List (String × Int) :=
  firstPerTid [] (speciesCursor rows)

/-- The creation loop of extract_and_create_species: skip names already in
the cache, re-check the store by taxonomy id, otherwise insert (the flush
enforcing the species unique constraints) and cache. -/
def speciesLoop (st : Store) (c : Caches) : List (String × Int) → Except String (Store × Caches)
  | [] => .ok (st, c)
  | (nm, tid) :: rest =>
    if (dictGet c.species_cache nm).isSome then
      speciesLoop st c rest
    else
      match findSpeciesByTaxonomy st.species tid with
      | some existing =>
        speciesLoop st { c with species_cache := dictSet c.species_cache nm existing.id } rest
      | none =>
        let row : SpeciesRow := ⟨st.species.length + 1, nm, tid⟩
        let st' := { st with species := st.species ++ [row] }
        if speciesCheckB st' then
          speciesLoop st' { c with species_cache := dictSet c.species_cache nm row.id } rest
        else
          .error "IntegrityError: species"

/-- DataMigrator.extract_and_create_species. -/
def extract_and_create_species (st : Store) (c : Caches) (rows : List SrcResource) :
    Except String (Store × Caches) :=
  speciesLoop st c (species_data rows)

/-! ## Genome extraction (migrate.py lines 201-240) -/

/-- The ORDER BY of the genome query: species then genome, text order. -/
def lePairStr (a b : String × String) : Bool :=
  if a.1 = b.1 then strLe a.2 b.2 else strLe a.1 b.1

/-- SELECT DISTINCT species, genome where both non-null, ORDER BY species,
genome. -/
def genomePairs (rows : List SrcResource) : List (String × String) :=
  sortByLe lePairStr (dedupFirst (rows.filterMap fun r =>
    match r.species, r.genome with
    | some s, some g => some (s, g)
    | _, _ => none))

/-- The creation loop of extract_and_create_genomes: a pair is handled only
when it is not yet cached and its species name is cached; the store is then
re-checked by (species_id, genome_build) before inserting. -/
def genomesLoop (st : Store) (c : Caches) : List (String × String) → Except String (Store × Caches)
  | [] => .ok (st, c)
  | (nm, gb) :: rest =>
    if !(dictGet c.genome_cache (nm, gb)).isSome then
      match dictGet c.species_cache nm with
      | some sid =>
        match findGenomeByKey st.genomes sid gb with
        | some existing =>
          genomesLoop st { c with genome_cache := dictSet c.genome_cache (nm, gb) existing.id } rest
        | none =>
          let row : GenomeRow := ⟨st.genomes.length + 1, sid, gb⟩
          let st' := { st with genomes := st.genomes ++ [row] }
          if genomesCheckB st' then
            genomesLoop st' { c with genome_cache := dictSet c.genome_cache (nm, gb) row.id } rest
          else
            .error "IntegrityError: genomes"
      | none => genomesLoop st c rest
    else
      genomesLoop st c rest

/-- DataMigrator.extract_and_create_genomes. -/
def extract_and_create_genomes (st : Store) (c : Caches) (rows : List SrcResource) :
    Except String (Store × Caches) :=
  genomesLoop st c (genomePairs rows)

/-! ## Provider extraction (migrate.py lines 242-273) -/

/-- SELECT DISTINCT dataprovider where non-null, ORDER BY dataprovider. -/
def providerNames (rows : List SrcResource) : List String :=
  sortByLe strLe (dedupFirst (rows.filterMap (·.dataprovider)))

/-- The creation loop of extract_and_create_providers. -/
def providersLoop (st : Store) (c : Caches) : List String → Except String (Store × Caches)
  | [] => .ok (st, c)
  | nm :: rest =>
    if (dictGet c.provider_cache nm).isSome then
      providersLoop st c rest
    else
      match findProviderByName st.data_providers nm with
      | some existing =>
        providersLoop st { c with provider_cache := dictSet c.provider_cache nm existing.id } rest
      | none =>
        let row : DataProviderRow := ⟨st.data_providers.length + 1, nm⟩
        let st' := { st with data_providers := st.data_providers ++ [row] }
        if providersCheckB st' then
          providersLoop st' { c with provider_cache := dictSet c.provider_cache nm row.id } rest
        else
          .error "IntegrityError: data_providers"

/-- DataMigrator.extract_and_create_providers. -/
def extract_and_create_providers (st : Store) (c : Caches) (rows : List SrcResource) :
    Except String (Store × Caches) :=
  providersLoop st c (providerNames rows)

/-! ## User extraction (migrate.py lines 275-312) -/

/-- SELECT DISTINCT maintainer where non-null, ORDER BY maintainer. -/
def maintainerStrings (rows : List SrcResource) : List String :=
  sortByLe strLe (dedupFirst (rows.filterMap (·.maintainer)))

/-- The creation loop of extract_and_create_users: parse each maintainer
string; only entries with a truthy email are considered. -/
def usersLoop (st : Store) (c : Caches) : List String → Except String (Store × Caches)
  | [] => .ok (st, c)
  | m :: rest =>
    let (full_name, email) := parse_maintainer_email (some m)
    match email with
    | some e =>
      if e = "" then usersLoop st c rest
      else if (dictGet c.user_cache e).isSome then usersLoop st c rest
      else
        match findUserByEmail st.users e with
        | some existing =>
          usersLoop st { c with user_cache := dictSet c.user_cache e existing.id } rest
        | none =>
          let row : UserRow := ⟨st.users.length + 1, e, full_name, "maintainer"⟩
          let st' := { st with users := st.users ++ [row] }
          if usersCheckB st' then
            usersLoop st' { c with user_cache := dictSet c.user_cache e row.id } rest
          else
            .error "IntegrityError: users"
    | none => usersLoop st c rest

/-- DataMigrator.extract_and_create_users. -/
def extract_and_create_users (st : Store) (c : Caches) (rows : List SrcResource) :
    Except String (Store × Caches) :=
  usersLoop st c (maintainerStrings rows)

/-! ## Recipe extraction (migrate.py lines 314-382)

Two passes: the source recipes table in id order, then the distinct
preparerclass values of the resources table.  The function returns the
sqlite-id to target-id map; note that a recipe name already cached is
skipped entirely, so its sqlite id never enters the map. -/

/-- The first recipe pass, threading the sqlite-id map. -/
def recipesLoop1 (st : Store) (c : Caches) (rmap : List (Int × Nat)) :
    List SrcRecipe → Except String (Store × Caches × List (Int × Nat))
  | [] => .ok (st, c, rmap)
  | row :: rest =>
    match row.recipe with
    | some nm =>
      if nm = "" then recipesLoop1 st c rmap rest
      else if (dictGet c.recipe_cache nm).isSome then recipesLoop1 st c rmap rest
      else
        match findRecipeByName st.recipes nm with
        | some existing =>
          recipesLoop1 st { c with recipe_cache := dictSet c.recipe_cache nm existing.id }
            (dictSet rmap row.id existing.id) rest
        | none =>
          let newRow : RecipeRow := ⟨st.recipes.length + 1, nm, row.package, none⟩
          let st' := { st with recipes := st.recipes ++ [newRow] }
          if recipesCheckB st' then
            recipesLoop1 st' { c with recipe_cache := dictSet c.recipe_cache nm newRow.id }
              (dictSet rmap row.id newRow.id) rest
          else
            .error "IntegrityError: recipes"
    | none => recipesLoop1 st c rmap rest

/-- SELECT DISTINCT preparerclass where non-null, ORDER BY preparerclass. -/
def preparerClasses (rows : List SrcResource) : List String :=
  sortByLe strLe (dedupFirst (rows.filterMap (·.preparerclass)))

/-- The second recipe pass over preparer classes. -/
def recipesLoop2 (st : Store) (c : Caches) : List String → Except String (Store × Caches)
  | [] => .ok (st, c)
  | nm :: rest =>
    if nm = "" then recipesLoop2 st c rest
    else if (dictGet c.recipe_cache nm).isSome then recipesLoop2 st c rest
    else
      match findRecipeByName st.recipes nm with
      | some existing =>
        recipesLoop2 st { c with recipe_cache := dictSet c.recipe_cache nm existing.id } rest
      | none =>
        let newRow : RecipeRow := ⟨st.recipes.length + 1, nm, none, some nm⟩
        let st' := { st with recipes := st.recipes ++ [newRow] }
        if recipesCheckB st' then
          recipesLoop2 st' { c with recipe_cache := dictSet c.recipe_cache nm newRow.id } rest
        else
          .error "IntegrityError: recipes"

/-- DataMigrator.extract_and_create_recipes; returns the sqlite-id map. -/
def extract_and_create_recipes (st : Store) (c : Caches) (snap : Snapshot) :
    Except String (Store × Caches × List (Int × Nat)) := do
  let (st, c, rmap) ← recipesLoop1 st c [] (sortByLe (fun a b => intLe a.id b.id) snap.recipes)
  let (st, c) ← recipesLoop2 st c (preparerClasses snap.resources)
  .ok (st, c, rmap)

/-! ## Storage-location extraction (migrate.py lines 384-438) -/

/-- Decimal digits of a natural number (fuel-driven helper). -/
def natToDigitsGo : Nat → Nat → List Char → List Char
  | 0, _, acc => acc
  | fuel + 1, n, acc =>
    let d := Char.ofNat (48 + n % 10)
    if n < 10 then d :: acc else natToDigitsGo fuel (n / 10) (d :: acc)

/-- Decimal rendering of a natural number. -/
def natToStr (n : Nat) : String :=
  ⟨natToDigitsGo (n + 1) n []⟩

/-- Decimal rendering of an integer (Python str(i)). -/
def intToStr (i : Int) : String :=
  if i < 0 then "-" ++ natToStr (-i).toNat else natToStr i.toNat

/-- The synthesized storage natural key, the Python f-string
"Storage {sqlite_id}" of migrate.py line 399. -/
def storageName (sqliteId : Int) : String :=
  "Storage " ++ intToStr sqliteId

/-- Character-list prefix test. -/
def isPrefixOfB [DecidableEq α] : List α → List α → Bool
  | [], _ => true
  | _ :: _, [] => false
  | a :: as, b :: bs => if a = b then isPrefixOfB as bs else false

/-- Python str.startswith. -/
def strStartsWith (s p : String) : Bool :=
  isPrefixOfB p.data s.data

/-- Storage type classification by URL scheme (migrate.py lines 413-420). -/
def storageTypeOf (url : String) : String :=
  if strStartsWith url "http://" || strStartsWith url "https://" then "http"
  else if strStartsWith url "ftp://" then "ftp"
  else if strStartsWith url "s3://" then "s3"
  else "local"

/-- The storage-location loop, threading the sqlite-id map.  A falsy URL
with an uncached name does nothing; a cached name still records the map
entry. -/
def storagesLoop (st : Store) (c : Caches) (smap : List (Int × Nat)) :
    List SrcLocationRow → Except String (Store × Caches × List (Int × Nat))
  | [] => .ok (st, c, smap)
  | row :: rest =>
    let nm := storageName row.id
    if strTruthy row.locationUrl && !(dictGet c.storage_cache nm).isSome then
      match findStorageByName st.storage_locations nm with
      | some existing =>
        storagesLoop st { c with storage_cache := dictSet c.storage_cache nm existing.id }
          (dictSet smap row.id existing.id) rest
      | none =>
        let url := row.locationUrl.getD ""
        let newRow : StorageLocationRow :=
          ⟨st.storage_locations.length + 1, nm, storageTypeOf url, some url⟩
        let st' := { st with storage_locations := st.storage_locations ++ [newRow] }
        if storagesCheckB st' then
          storagesLoop st' { c with storage_cache := dictSet c.storage_cache nm newRow.id }
            (dictSet smap row.id newRow.id) rest
        else
          .error "IntegrityError: storage_locations"
    else if (dictGet c.storage_cache nm).isSome then
      storagesLoop st c (dictSet smap row.id ((dictGet c.storage_cache nm).getD 0)) rest
    else
      storagesLoop st c smap rest

/-- DataMigrator.extract_and_create_storage_locations; returns the
sqlite-id map. -/
def extract_and_create_storage_locations (st : Store) (c : Caches) (snap : Snapshot) :
    Except String (Store × Caches × List (Int × Nat)) :=
  storagesLoop st c [] (sortByLe (fun a b => intLe a.id b.id) snap.locations)

/-! ## The resource migrator (migrate.py lines 440-520) -/

/-- The status lookup of migrate.py line 470: the source status_id column
holds an integer, but status_cache is keyed by status strings, so the
dict.get never finds it and the subsequent Python "or 1" fallback always
applies. -/
def statusIdLookup (_c : Caches) (_i : Option Int) : Option Nat :=
  none

/-- A date field parsed when truthy, defaulting to the current time:
datetime.fromisoformat(x) if x else datetime.now().  A truthy
non-ISO string models Python raising ValueError. -/
def parseDateOrNow (s : Option String) (now : PyDateTime) : Except String PyDateTime :=
  if strTruthy s then
    match fromisoformat (s.getD "") with
    | some d => .ok d
    | none => .error "ValueError: Invalid isoformat string"
  else
    .ok now

/-- A date field parsed when truthy, otherwise absent. -/
def parseDateOrNone (s : Option String) : Except String (Option PyDateTime) :=
  if strTruthy s then
    match fromisoformat (s.getD "") with
    | some d => .ok (some d)
    | none => .error "ValueError: Invalid isoformat string"
  else
    .ok none

/-- The per-row body of migrate_hub_resources (lines 465-499): resolve all
foreign references through the caches, parse the date fields, build the
Resource with version_number at its server default 1.  The row id is a
placeholder until the batch is flushed. -/
def rowToResource (c : Caches) (hub : Nat) (recipeIdMap : List (Int × Nat)) (now : PyDateTime)
    (r : SrcResource) : Except String ResourceRow :=
  let species_id :=
    match r.species with
    | some s => dictGet c.species_cache s
    | none => none
  let genome_id :=
    if strTruthy r.species && strTruthy r.genome then
      dictGet c.genome_cache (r.species.getD "", r.genome.getD "")
    else none
  let provider_id :=
    match r.dataprovider with
    | some p => dictGet c.provider_cache p
    | none => none
  let status_id := (statusIdLookup c r.status_id).getD 1
  let email := if strTruthy r.maintainer then (parse_maintainer_email r.maintainer).2 else none
  let maintainer_id :=
    match email with
    | some e => if e = "" then none else dictGet c.user_cache e
    | none => none
  let recipe_id :=
    if intTruthy r.recipe_id && (dictGet recipeIdMap (r.recipe_id.getD 0)).isSome then
      dictGet recipeIdMap (r.recipe_id.getD 0)
    else if strTruthy r.preparerclass then
      dictGet c.recipe_cache (r.preparerclass.getD "")
    else none
  match parseDateOrNow r.rdatadateadded now with
  | .error e => .error e
  | .ok created_at =>
  match parseDateOrNow r.rdatadateadded now with
  | .error e => .error e
  | .ok valid_from =>
  match parseDateOrNone r.rdatadateremoved with
  | .error e => .error e
  | .ok deleted_at =>
  .ok
    { id := 0
      hub_id := hub
      hub_accession := r.ah_id
      title := r.title
      description := r.description
      species_id := species_id
      genome_id := genome_id
      coordinate_1_based := r.coordinate_1_based.map (fun i => !(i = 0))
      data_provider_id := provider_id
      recipe_id := recipe_id
      maintainer_id := maintainer_id
      status_id := status_id
      created_at := created_at
      valid_from := valid_from
      deleted_at := deleted_at
      version_number := 1 }

/-- Sequential identity assignment to a flushed batch, starting after the
rows already in the table. -/
def assignResourceIds (n : Nat) : List ResourceRow → List ResourceRow
  | [] => []
  | r :: t => { r with id := n + 1 } :: assignResourceIds (n + 1) t

/-- session.add_all plus flush for a resource batch: append the batch with
fresh ids. -/
def addResources (st : Store) (batch : List ResourceRow) : Store :=
  { st with resources := st.resources ++ assignResourceIds st.resources.length batch }

/-- The streaming loop of migrate_hub_resources: buffer each built row,
flush (with the uniqueness check of uq_hub_accession_version) when the
batch is full, flush the non-empty remainder at the end, and return the
row count.  The batch size is the literal 1000 at line 462, passed here as
a parameter since the claims quantify over it. -/
def resourcesLoop (c : Caches) (hub : Nat) (recipeIdMap : List (Int × Nat)) (now : PyDateTime)
    (bsz : Nat) (st : Store) (batch : List ResourceRow) (count : Nat) :
    List SrcResource → Except String (Store × Nat)
  | [] =>
    if batch.isEmpty then .ok (st, count)
    else if resourcesCheckB (addResources st batch) then .ok (addResources st batch, count)
    else .error "IntegrityError: resources"
  | r :: rest =>
    match rowToResource c hub recipeIdMap now r with
    | .error e => .error e
    | .ok res =>
      if bsz ≤ (batch ++ [res]).length then
        if resourcesCheckB (addResources st (batch ++ [res])) then
          resourcesLoop c hub recipeIdMap now bsz (addResources st (batch ++ [res])) []
            (count + 1) rest
        else .error "IntegrityError: resources"
      else
        resourcesLoop c hub recipeIdMap now bsz st (batch ++ [res]) (count + 1) rest

/-- DataMigrator.migrate_hub_resources: stream the source resources in id
order through the batched loop.  The storage_id_map parameter is accepted
and unused, as in the Python signature. -/
def migrate_hub_resources (st : Store) (c : Caches) (rows : List SrcResource) (hub : Nat)
    (recipeIdMap : List (Int × Nat)) (_storageIdMap : List (Int × Nat)) (now : PyDateTime)
    (bsz : Nat) : Except String (Store × Nat) :=
  resourcesLoop c hub recipeIdMap now bsz st [] 0 (sortByLe (fun a b => intLe a.id b.id) rows)

/-! ## The tag migrator (migrate.py lines 522-598) -/

/-- SELECT DISTINCT tag where non-null, ORDER BY tag. -/
def distinctTags (snap : Snapshot) : List String :=
  sortByLe strLe (dedupFirst (snap.tags.filterMap (·.tag)))

/-- Phase one of migrate_tags: create missing Tag rows, guarded only by the
in-memory cache (load_caches preloads it from the store). -/
def tagsPhase1 (st : Store) (c : Caches) : List String → Except String (Store × Caches)
  | [] => .ok (st, c)
  | nm :: rest =>
    if nm = "" then tagsPhase1 st c rest
    else if (dictGet c.tag_cache nm).isSome then tagsPhase1 st c rest
    else
      let row : TagRow := ⟨st.tags.length + 1, nm⟩
      let st' := { st with tags := st.tags ++ [row] }
      if tagsCheckB st' then
        tagsPhase1 st' { c with tag_cache := dictSet c.tag_cache nm row.id } rest
      else
        .error "IntegrityError: tags"

/-- The join of the tags satellite table with the source resources table on
resource_id, yielding (accession, tag) pairs for non-null tags. -/
def joinTags (snap : Snapshot) : List (String × String) :=
  snap.tags.filterMap fun t =>
    match t.tag with
    | some tg =>
      match snap.resources.find? (fun r => r.id == t.resource_id) with
      | some r => some (r.ah_id, tg)
      | none => none
    | none => none

/-- session.add_all plus flush for a resource-tag batch. -/
def addResourceTags (st : Store) (batch : List ResourceTagRow) : Store :=
  { st with resource_tags := st.resource_tags ++ batch }

/-- Phase two of migrate_tags: for each joined (accession, tag) pair whose
tag is cached, look up the target Resource by (hub, accession) and link it;
pairs with no matching Resource are dropped.  Batches of 5000 are flushed
against the composite primary key of resource_tags. -/
def tagLinksLoop (c : Caches) (hub : Nat) (st : Store) (batch : List ResourceTagRow)
    (count : Nat) : List (String × String) → Except String Store
  | [] =>
    if batch.isEmpty then .ok st
    else
      let st' := addResourceTags st batch
      if resourceTagsCheckB st' then .ok st' else .error "IntegrityError: resource_tags"
  | (acc, tg) :: rest =>
    match dictGet c.tag_cache tg with
    | some tagId =>
      match findResource st hub acc with
      | some res =>
        let batch' := batch ++ [⟨res.id, tagId⟩]
        if 5000 ≤ batch'.length then
          let st' := addResourceTags st batch'
          if resourceTagsCheckB st' then tagLinksLoop c hub st' [] (count + 1) rest
          else .error "IntegrityError: resource_tags"
        else
          tagLinksLoop c hub st batch' (count + 1) rest
      | none => tagLinksLoop c hub st batch count rest
    | none => tagLinksLoop c hub st batch count rest

/-- DataMigrator.migrate_tags. -/
def migrate_tags (st : Store) (c : Caches) (snap : Snapshot) (hub : Nat) :
    Except String (Store × Caches) := do
  let (st, c) ← tagsPhase1 st c (distinctTags snap)
  let st ← tagLinksLoop c hub st [] 0 (joinTags snap)
  .ok (st, c)

/-! ## The resource-file migrator (migrate.py lines 600-652) -/

/-- The join of rdatapaths with the source resources table on
resource_id. -/
def joinRdatapaths (snap : Snapshot) : List (String × SrcRdatapath) :=
  snap.rdatapaths.filterMap fun p =>
    match snap.resources.find? (fun r => r.id == p.resource_id) with
    | some r => some (r.ah_id, p)
    | none => none

/-- Sequential identity assignment to a flushed resource-file batch. -/
def assignFileIds (n : Nat) : List ResourceFileRow → List ResourceFileRow
  | [] => []
  | r :: t => { r with id := n + 1 } :: assignFileIds (n + 1) t

/-- session.add_all plus flush for a resource-file batch, enforcing
uq_resource_file_path_valid. -/
def addResourceFiles (st : Store) (batch : List ResourceFileRow) : Store :=
  { st with resource_files := st.resource_files ++ assignFileIds st.resource_files.length batch }

/-- The loop of migrate_resource_files, batch size 2000.  The valid_from of
each inserted row takes the server default, the transaction timestamp of
this run. -/
def resourceFilesLoop (hub : Nat) (now : PyDateTime) (st : Store)
    (batch : List ResourceFileRow) : List (String × SrcRdatapath) → Except String Store
  | [] =>
    if batch.isEmpty then .ok st
    else
      let st' := addResourceFiles st batch
      if resourceFilesCheckB st' then .ok st' else .error "IntegrityError: resource_files"
  | (acc, p) :: rest =>
    match findResource st hub acc with
    | some res =>
      let batch' := batch ++ [⟨0, res.id, p.rdatapath, p.rdataclass, p.dispatchclass, now⟩]
      if 2000 ≤ batch'.length then
        let st' := addResourceFiles st batch'
        if resourceFilesCheckB st' then resourceFilesLoop hub now st' [] rest
        else .error "IntegrityError: resource_files"
      else
        resourceFilesLoop hub now st batch' rest
    | none => resourceFilesLoop hub now st batch rest

/-- DataMigrator.migrate_resource_files.  The storage_id_map parameter is
accepted and unused, as in the Python signature. -/
def migrate_resource_files (st : Store) (snap : Snapshot) (hub : Nat)
    (_storageIdMap : List (Int × Nat)) (now : PyDateTime) : Except String Store :=
  resourceFilesLoop hub now st [] (joinRdatapaths snap)

/-! ## The source-file migrator (migrate.py lines 654-710) -/

/-- The join of input_sources with the source resources table on
resource_id. -/
def joinInputSources (snap : Snapshot) : List (String × SrcInputSource) :=
  snap.input_sources.filterMap fun p =>
    match snap.resources.find? (fun r => r.id == p.resource_id) with
    | some r => some (r.ah_id, p)
    | none => none

/-- Python str.isdigit on a non-empty ASCII string. -/
def strIsDigit (s : String) : Bool :=
  !(s.data = []) && s.data.all isDigitB

/-- Decimal value of a digit string. -/
def digitsToInt (s : String) : Int :=
  Int.ofNat (s.data.foldl (fun n c => n * 10 + digitVal c) 0)

/-- Sequential identity assignment to a flushed source-file batch. -/
def assignSourceFileIds (n : Nat) : List SourceFileRow → List SourceFileRow
  | [] => []
  | r :: t => { r with id := n + 1 } :: assignSourceFileIds (n + 1) t

/-- session.add_all plus flush for a source-file batch (the source_files
table declares no uniqueness constraint beyond its id). -/
def addSourceFiles (st : Store) (batch : List SourceFileRow) : Store :=
  { st with source_files := st.source_files ++ assignSourceFileIds st.source_files.length batch }

/-- The loop of migrate_source_files, batch size 2000.  The file size is
int(x) when x is a truthy digit string, else absent; the
last-modified date goes through fromisoformat and can raise. -/
def sourceFilesLoop (hub : Nat) (st : Store) (batch : List SourceFileRow) :
    List (String × SrcInputSource) → Except String Store
  | [] =>
    if batch.isEmpty then .ok st else .ok (addSourceFiles st batch)
  | (acc, p) :: rest =>
    match findResource st hub acc with
    | some res =>
      let size :=
        match p.sourcesize with
        | some s => if !(s = "") && strIsDigit s then some (digitsToInt s) else none
        | none => none
      match parseDateOrNone p.sourcelastmodifieddate with
      | .error e => .error e
      | .ok lastMod =>
        let batch' := batch ++
          [⟨0, res.id, p.sourceurl, p.sourcetype, p.sourceversion, p.sourcemd5, size, lastMod⟩]
        if 2000 ≤ batch'.length then
          sourceFilesLoop hub (addSourceFiles st batch') [] rest
        else
          sourceFilesLoop hub st batch' rest
    | none => sourceFilesLoop hub st batch rest

/-- DataMigrator.migrate_source_files. -/
def migrate_source_files (st : Store) (snap : Snapshot) (hub : Nat) : Except String Store :=
  sourceFilesLoop hub st [] (joinInputSources snap)

/-! ## The Bioconductor-version migrator (migrate.py lines 712-764) -/

/-- The join of biocversions with the source resources table on
resource_id. -/
def joinBiocVersions (snap : Snapshot) : List (String × Option String) :=
  snap.biocversions.filterMap fun b =>
    match snap.resources.find? (fun r => r.id == b.resource_id) with
    | some r => some (r.ah_id, b.biocversion)
    | none => none

/-- session.add_all plus flush for a resource-bioc-version batch. -/
def addResourceBiocVersions (st : Store) (batch : List ResourceBiocVersionRow) : Store :=
  { st with resource_bioc_versions := st.resource_bioc_versions ++ batch }

/-- The loop of migrate_bioc_versions, batch size 5000: versions absent
from the preloaded release cache are skipped, then the Resource is looked
up by (hub, accession). -/
def biocLoop (c : Caches) (hub : Nat) (st : Store) (batch : List ResourceBiocVersionRow) :
    List (String × Option String) → Except String Store
  | [] =>
    if batch.isEmpty then .ok st
    else
      let st' := addResourceBiocVersions st batch
      if resourceBiocCheckB st' then .ok st' else .error "IntegrityError: resource_bioc_versions"
  | (acc, ver) :: rest =>
    match ver with
    | some v =>
      match dictGet c.bioc_release_cache v with
      | some relId =>
        match findResource st hub acc with
        | some res =>
          let batch' := batch ++ [⟨res.id, relId⟩]
          if 5000 ≤ batch'.length then
            let st' := addResourceBiocVersions st batch'
            if resourceBiocCheckB st' then biocLoop c hub st' [] rest
            else .error "IntegrityError: resource_bioc_versions"
          else
            biocLoop c hub st batch' rest
        | none => biocLoop c hub st batch rest
      | none => biocLoop c hub st batch rest
    | none => biocLoop c hub st batch rest

/-- DataMigrator.migrate_bioc_versions. -/
def migrate_bioc_versions (st : Store) (c : Caches) (snap : Snapshot) (hub : Nat) :
    Except String Store :=
  biocLoop c hub st [] (joinBiocVersions snap)

/-! ## load_caches and the orchestrator (migrate.py lines 98-147, 766-841) -/

/-- Fold a list of rows into a dict through a key and value projection. -/
def cacheFromRows [DecidableEq κ] (rows : List α) (key : α → κ) (value : α → Nat)
    (d : List (κ × Nat)) : List (κ × Nat) :=
  rows.foldl (fun acc r => dictSet acc (key r) (value r)) d

/-- The genome part of load_caches: each genome row is joined to its
species row by id; scalar_one raises when the species is missing. -/
def genomeCacheLoop (species : List SpeciesRow) (d : List ((String × String) × Nat)) :
    List GenomeRow → Except String (List ((String × String) × Nat))
  | [] => .ok d
  | g :: rest =>
    match findSpeciesById species g.species_id with
    | some sp => genomeCacheLoop species (dictSet d (sp.scientific_name, g.genome_build) g.id) rest
    | none => .error "NoResultFound: species"

/-- DataMigrator.load_caches: preload every dedup cache from the rows
already present in the target store. -/
def load_caches (st : Store) (c : Caches) : Except String Caches := do
  let c := { c with status_cache := cacheFromRows st.resource_statuses (·.status) (·.id) c.status_cache }
  let c := { c with bioc_release_cache := cacheFromRows st.bioc_releases (·.version) (·.id) c.bioc_release_cache }
  let c := { c with species_cache := cacheFromRows st.species (·.scientific_name) (·.id) c.species_cache }
  let gcache ← genomeCacheLoop st.species c.genome_cache st.genomes
  let c := { c with genome_cache := gcache }
  let c := { c with provider_cache := cacheFromRows st.data_providers (·.name) (·.id) c.provider_cache }
  let c := { c with user_cache := cacheFromRows st.users (·.email) (·.id) c.user_cache }
  let c := { c with recipe_cache := cacheFromRows st.recipes (·.name) (·.id) c.recipe_cache }
  let c := { c with storage_cache := cacheFromRows st.storage_locations (·.name) (·.id) c.storage_cache }
  let c := { c with tag_cache := cacheFromRows st.tags (·.tag) (·.id) c.tag_cache }
  .ok c

/-- DataMigrator.run_migration for a freshly constructed migrator (caches
start empty, as in migrate_sqlite_to_postgres, which builds a new
DataMigrator per invocation): load caches, extract the six reference
entity kinds from each snapshot, migrate the resources of each hub with
the literal batch size 1000, then the four relationship migrators per hub.
Returns the final store, the caches, and the two resource counts. -/
def run_migration (st : Store) (ah eh : Snapshot) (now : PyDateTime) :
    Except String (Store × Caches × Nat × Nat) := do
  let c ← load_caches st emptyCaches
  let (st, c) ← extract_and_create_species st c ah.resources
  let (st, c) ← extract_and_create_genomes st c ah.resources
  let (st, c) ← extract_and_create_providers st c ah.resources
  let (st, c) ← extract_and_create_users st c ah.resources
  let (st, c, recipeIdMap) ← extract_and_create_recipes st c ah
  let (st, c, storageIdMap) ← extract_and_create_storage_locations st c ah
  let (st, c) ← extract_and_create_species st c eh.resources
  let (st, c) ← extract_and_create_genomes st c eh.resources
  let (st, c) ← extract_and_create_providers st c eh.resources
  let (st, c) ← extract_and_create_users st c eh.resources
  let (st, c, ehRecipeMap) ← extract_and_create_recipes st c eh
  let (st, c, ehStorageMap) ← extract_and_create_storage_locations st c eh
  let (st, ahCount) ← migrate_hub_resources st c ah.resources 1 recipeIdMap storageIdMap now 1000
  let (st, ehCount) ← migrate_hub_resources st c eh.resources 2 ehRecipeMap ehStorageMap now 1000
  let (st, c) ← migrate_tags st c ah 1
  let st ← migrate_resource_files st ah 1 storageIdMap now
  let st ← migrate_source_files st ah 1
  let st ← migrate_bioc_versions st c ah 1
  let (st, c) ← migrate_tags st c eh 2
  let st ← migrate_resource_files st eh 2 ehStorageMap now
  let st ← migrate_source_files st eh 2
  let st ← migrate_bioc_versions st c eh 2
  .ok (st, c, ahCount, ehCount)

/-! ## Concrete fixtures

Small snapshots and stores used to evaluate the migration at specific
inputs. -/

/-- A run timestamp. -/
def fixtureNow1 : PyDateTime := ⟨2026, 1, 1, 0, 0, 0, 0⟩

/-- A later run timestamp for a second migration run. -/
def fixtureNow2 : PyDateTime := ⟨2026, 1, 2, 0, 0, 0, 0⟩

/-- One well-formed source resource row. -/
def fixtureSrcRow : SrcResource :=
  { id := 1, ah_id := "AH1", title := some "T", description := none,
    dataprovider := some "Ensembl", species := some "Homo sapiens",
    taxonomyid := some 9606, genome := some "hg19", coordinate_1_based := some 1,
    maintainer := some "Jane Doe <jane@x.org>", rdatadateadded := some "2013-03-19",
    rdatadateremoved := none, preparerclass := none, recipe_id := none,
    status_id := some 1 }

/-- An AnnotationHub snapshot with one resource and one tag satellite row. -/
def fixtureAH : Snapshot :=
  { resources := [fixtureSrcRow], tags := [⟨1, some "Annotation"⟩], rdatapaths := [],
    input_sources := [], biocversions := [], recipes := [], locations := [] }

/-- An empty ExperimentHub snapshot. -/
def fixtureEH : Snapshot :=
  { resources := [], tags := [], rdatapaths := [], input_sources := [],
    biocversions := [], recipes := [], locations := [] }

/-- A target store already holding the migrated resource of fixtureAH. -/
def fixtureStoreWithResource : Store :=
  { emptyStore with
      resources := [⟨1, 1, "AH1", some "T", none, none, none, none, none, none, none, 1,
        fixtureNow1, fixtureNow1, none, 1⟩] }

/-- A source row whose date-added field is a non-empty, non-ISO string. -/
def fixtureBadDateRow : SrcResource :=
  { fixtureSrcRow with rdatadateadded := some "not-a-date" }

/-- A snapshot in which two rows share the (species-name, genome-build)
pair (Homo Sapiens, hg19) while three further rows make the spelling
Homo sapiens the most frequent one for taxonomy id 9606. -/
def c8Rows : List SrcResource :=
  [ { fixtureSrcRow with species := some "Homo Sapiens", genome := some "hg19" },
    { fixtureSrcRow with species := some "Homo Sapiens", genome := some "hg19" },
    { fixtureSrcRow with species := some "Homo sapiens", genome := none },
    { fixtureSrcRow with species := some "Homo sapiens", genome := none },
    { fixtureSrcRow with species := some "Homo sapiens", genome := none } ]

/-- The non-canonically spelled source row used as the C9 instance. -/
def c9Row : SrcResource :=
  { fixtureSrcRow with species := some "Homo Sapiens", genome := some "hg19" }

/-! ## Derived forms used to state the extraction claims -/

/-- The species rows created by one insert-only extraction pass starting
after n existing rows: sequential ids, one row per entry. -/
def mkSpeciesRows (n : Nat) : List (String × Int) → List SpeciesRow
  | [] => []
  | (nm, t) :: rest => ⟨n + 1, nm, t⟩ :: mkSpeciesRows (n + 1) rest

/-- The species cache produced by the same pass. -/
def cacheKeysWith (d : List (String × Nat)) (n : Nat) : List (String × Int) → List (String × Nat)
  | [] => d
  | (nm, _) :: rest => cacheKeysWith (dictSet d nm (n + 1)) (n + 1) rest

/-- The explicit association list the pass builds from an empty cache. -/
def mkCachePairs (n : Nat) : List (String × Int) → List (String × Nat)
  | [] => []
  | (nm, _) :: rest => (nm, n + 1) :: mkCachePairs (n + 1) rest

/-- The genome rows of the store that realise a given (species-name,
genome-build) pair, resolved through the species cache. -/
def genomeRowsFor (st : Store) (c : Caches) (nm gb : String) : List GenomeRow :=
  match dictGet c.species_cache nm with
  | some sid => st.genomes.filter (fun g => decide ((g.species_id, g.genome_build) = (sid, gb)))
  | none => []

end HubsMigrate

namespace HubsMigrate

/-! ## Claim theorems -/

/-- C1.  The full migration is not idempotent: on a single-resource
snapshot against an initially empty target, the first run_migration
succeeds (one resource, one species, one tag, one junction row, counts 1
and 0), but the second run re-inserts the resource with the same
(hub_id, hub_accession, version_number) key and aborts with a uniqueness
violation of uq_hub_accession_version instead of completing with zero new
rows.  The reference-entity extractors alone are idempotent. -/
theorem run_migration_rerun_collides :
    (run_migration emptyStore fixtureAH fixtureEH fixtureNow1).map
        (fun (p : Store × Caches × Nat × Nat) => (p.1.resources.length, p.1.species.length, p.1.tags.length,
          p.1.resource_tags.length, p.2.2)) = .ok (1, 1, 1, 1, 1, 0) ∧
    (do
      let (st, _, _, _) ← run_migration emptyStore fixtureAH fixtureEH fixtureNow1
      run_migration st fixtureAH fixtureEH fixtureNow2)
      = .error "IntegrityError: resources" := by
  exact ⟨rfl, rfl⟩

/-- C2.  The tag migrator is not re-runnable: with the caches preloaded by
load_caches, a first migrate_tags run against a store holding the matching
resource creates one resource-tag junction row, and a second run of the
same migrator re-inserts the same (resource_id, tag_id) pair and aborts
with a violation of the composite primary key of resource_tags. -/
theorem migrate_tags_rerun_collides :
    (do
      let c ← load_caches fixtureStoreWithResource emptyCaches
      migrate_tags fixtureStoreWithResource c fixtureAH 1).map
        (fun (p : Store × Caches) => p.1.resource_tags.length) = .ok 1 ∧
    (do
      let c ← load_caches fixtureStoreWithResource emptyCaches
      let (st1, _) ← migrate_tags fixtureStoreWithResource c fixtureAH 1
      let c2 ← load_caches st1 emptyCaches
      migrate_tags st1 c2 fixtureAH 1)
      = .error "IntegrityError: resource_tags" := by
  exact ⟨rfl, rfl⟩

/-- C3, counterexample.  A non-empty, non-ISO date-added string is not
treated as absent: fromisoformat raises ValueError, failing the row and
aborting migrate_hub_resources. -/
theorem migrate_row_malformed_date_raises :
    rowToResource emptyCaches 1 [] fixtureNow1 fixtureBadDateRow
      = .error "ValueError: Invalid isoformat string" ∧
    migrate_hub_resources emptyStore emptyCaches [fixtureBadDateRow] 1 [] [] fixtureNow1 1000
      = .error "ValueError: Invalid isoformat string" := by
  exact ⟨rfl, rfl⟩

/-- C4.  The five specified maintainer-parsing examples hold; the
function is total by construction (it returns a pair on every optional
string and has no raising branch). -/
theorem parse_maintainer_email_spec_examples :
    parse_maintainer_email (some "Jane Doe <jane@x.org>")
        = (some "Jane Doe", some "jane@x.org") ∧
    parse_maintainer_email (some "<jane@x.org>") = (none, some "jane@x.org") ∧
    parse_maintainer_email (some "jane@x.org") = (none, some "jane@x.org") ∧
    parse_maintainer_email (some "not an email") = (none, none) ∧
    parse_maintainer_email none = (none, none) := by
  exact ⟨rfl, rfl, rfl, rfl, rfl⟩

/-- C3, amended part.  When the date-added field is absent (NULL or empty,
the falsy Python values), created_at and valid_from both default to the
current time, and when the date-removed field is absent deleted_at is
absent; the row builds without error. -/
theorem parseDateOrNow_falsy (s : Option String) (now : PyDateTime)
    (h : strTruthy s = false) : parseDateOrNow s now = .ok now := by
  simp [parseDateOrNow, h]

theorem parseDateOrNone_falsy (s : Option String) (h : strTruthy s = false) :
    parseDateOrNone s = .ok none := by
  simp [parseDateOrNone, h]

theorem migrate_row_missing_dates_default (c : Caches) (hub : Nat)
    (rmap : List (Int × Nat)) (now : PyDateTime) (r : SrcResource)
    (h1 : strTruthy r.rdatadateadded = false) (h2 : strTruthy r.rdatadateremoved = false) :
    ∃ res, rowToResource c hub rmap now r = .ok res
      ∧ res.created_at = now ∧ res.valid_from = now ∧ res.deleted_at = none := by
  simp only [rowToResource, parseDateOrNow_falsy r.rdatadateadded now h1,
    parseDateOrNone_falsy r.rdatadateremoved h2]
  exact ⟨_, rfl, rfl, rfl, rfl⟩

/-- Witness for the C3 amended theorem at a concrete row with both date
fields NULL. -/
theorem migrate_row_missing_dates_default_witness :
    ∃ res,
      rowToResource emptyCaches 1 [] fixtureNow1
          { fixtureSrcRow with rdatadateadded := none, rdatadateremoved := none } = .ok res
        ∧ res.created_at = fixtureNow1 ∧ res.valid_from = fixtureNow1
        ∧ res.deleted_at = none :=
  migrate_row_missing_dates_default emptyCaches 1 [] fixtureNow1
    { fixtureSrcRow with rdatadateadded := none, rdatadateremoved := none } rfl rfl

/-- Flushing a resource-tag batch leaves the resources table, and hence
every Resource lookup, unchanged. -/
theorem findResource_addResourceTags (st : Store) (b : List ResourceTagRow) (hub : Nat)
    (acc : String) : findResource (addResourceTags st b) hub acc = findResource st hub acc := rfl

/-- C6.  A satellite (accession, tag) pair whose accession has no matching
Resource in the target store for that hub is dropped by the tag-linking
loop: removing it from the work list, wherever it occurs, leaves the
entire run unchanged, so it raises no error, creates no junction row, and
the remaining rows are processed as before. -/
theorem tag_links_drop_dangling (c : Caches) (hub : Nat) (acc tg : String)
    (pre post : List (String × String)) (st : Store) (batch : List ResourceTagRow)
    (count : Nat) (h : findResource st hub acc = none) :
    tagLinksLoop c hub st batch count (pre ++ (acc, tg) :: post)
      = tagLinksLoop c hub st batch count (pre ++ post) := by
  induction pre generalizing st batch count with
  | nil =>
    simp only [List.nil_append, tagLinksLoop, h]
    cases dictGet c.tag_cache tg <;> rfl
  | cons p pre ih =>
    obtain ⟨acc', tg'⟩ := p
    simp only [List.cons_append, tagLinksLoop]
    cases hdg : dictGet c.tag_cache tg' with
    | none => exact ih st batch count h
    | some tagId =>
      cases hfr : findResource st hub acc' with
      | none => exact ih st batch count h
      | some res =>
        refine if_congr Iff.rfl (if_congr Iff.rfl ?_ rfl) ?_
        · refine ih _ [] (count + 1) ?_
          rw [findResource_addResourceTags]
          exact h
        · exact ih st _ (count + 1) h

/-- Witness for C6 at a concrete store and work list: the dangling pair
(AH9, Annotation) is dropped and the run of the remaining row is
unchanged. -/
theorem tag_links_drop_dangling_witness :
    findResource fixtureStoreWithResource 1 "AH9" = none ∧
    tagLinksLoop emptyCaches 1 fixtureStoreWithResource [] 0
        ([("AH1", "Annotation")] ++ ("AH9", "Annotation") :: [])
      = tagLinksLoop emptyCaches 1 fixtureStoreWithResource [] 0 [("AH1", "Annotation")] := by
  refine ⟨rfl, ?_⟩
  have h := tag_links_drop_dangling emptyCaches 1 "AH9" "Annotation"
    [("AH1", "Annotation")] [] fixtureStoreWithResource [] 0 rfl
  simpa using h

/-! ### Batch-size invariance machinery for C7 -/

theorem memB_append [DecidableEq α] (a : α) (l l' : List α) :
    memB a (l ++ l') = (memB a l || memB a l') := by
  induction l with
  | nil => rfl
  | cons x t ih =>
    simp only [List.cons_append, memB, ih]
    by_cases hx : x = a <;> simp [hx, ih]

theorem dupFree_append_one [DecidableEq α] (l : List α) (a : α) :
    dupFree (l ++ [a]) = (dupFree l && !memB a l) := by
  induction l with
  | nil => rfl
  | cons x t ih =>
    rw [List.cons_append]
    show (!memB x (t ++ [a]) && dupFree (t ++ [a]))
        = ((!memB x t && dupFree t) && !memB a (x :: t))
    rw [memB_append, ih]
    by_cases hxa : x = a
    · have hax : a = x := hxa.symm
      simp only [memB, if_pos hxa, if_pos hax]
      cases memB x t <;> simp
    · have hax : ¬a = x := fun hh => hxa hh.symm
      simp only [memB, if_neg hxa, if_neg hax]
      cases h1 : memB x t <;> cases h2 : memB a t <;> cases h3 : dupFree t <;> simp

theorem dupFree_mono_false [DecidableEq α] (l : List α) (a : α)
    (h : dupFree l = false) : dupFree (l ++ [a]) = false := by
  simp [dupFree_append_one, h]

theorem assignResourceIds_length (n : Nat) (b : List ResourceRow) :
    (assignResourceIds n b).length = b.length := by
  induction b generalizing n with
  | nil => rfl
  | cons x t ih => simp [assignResourceIds, ih]

theorem assignResourceIds_append_single (n : Nat) (b : List ResourceRow) (r : ResourceRow) :
    assignResourceIds n (b ++ [r])
      = assignResourceIds n b ++ [{ r with id := n + b.length + 1 }] := by
  induction b generalizing n with
  | nil => rfl
  | cons x t ih =>
    have harith : n + 1 + t.length + 1 = n + (t.length + 1) + 1 := by omega
    calc assignResourceIds n ((x :: t) ++ [r])
        = { x with id := n + 1 } :: assignResourceIds (n + 1) (t ++ [r]) := rfl
      _ = { x with id := n + 1 }
            :: (assignResourceIds (n + 1) t ++ [{ r with id := n + 1 + t.length + 1 }]) := by
          rw [ih (n + 1)]
      _ = assignResourceIds n (x :: t) ++ [{ r with id := n + (t.length + 1) + 1 }] := by
          rw [harith]
          exact rfl

theorem addResources_nil (st : Store) : addResources st [] = st := by
  simp [addResources, assignResourceIds]

theorem addResources_append_single (st : Store) (b : List ResourceRow) (r : ResourceRow) :
    addResources st (b ++ [r]) = addResources (addResources st b) [r] := by
  simp only [addResources, assignResourceIds_append_single, assignResourceIds,
    List.length_append, assignResourceIds_length, List.append_assoc]

theorem resourcesCheckB_snoc_false (st : Store) (r : ResourceRow)
    (h : resourcesCheckB st = false) : resourcesCheckB (addResources st [r]) = false := by
  unfold resourcesCheckB at h ⊢
  simp only [addResources, assignResourceIds, List.map_append, List.map_cons, List.map_nil]
  exact dupFree_mono_false _ _ h

/-- A run whose pending batch already makes the virtual store violate the
resource uniqueness constraint can only end in an error: the violating
rows are flushed at the latest when the loop ends. -/
theorem resourcesLoop_dead (c : Caches) (hub : Nat) (rmap : List (Int × Nat))
    (now : PyDateTime) (bsz : Nat) (rows : List SrcResource) :
    ∀ st batch count, batch ≠ [] →
      resourcesCheckB (addResources st batch) = false →
      (resourcesLoop c hub rmap now bsz st batch count rows).toOption = none := by
  induction rows with
  | nil =>
    intro st batch count hb hc
    cases batch with
    | nil => exact absurd rfl hb
    | cons x xs =>
      simp only [resourcesLoop]
      rw [if_neg (by simp), if_neg (by simp [hc])]
      rfl
  | cons r rest ih =>
    intro st batch count hb hc
    simp only [resourcesLoop]
    cases hres : rowToResource c hub rmap now r with
    | error e => rfl
    | ok res =>
      dsimp only
      have hc' : resourcesCheckB (addResources st (batch ++ [res])) = false := by
        rw [addResources_append_single]
        exact resourcesCheckB_snoc_false _ _ hc
      by_cases hf : bsz ≤ (batch ++ [res]).length
      · rw [if_pos hf, if_neg (by simp [hc'])]
        rfl
      · rw [if_neg hf]
        exact ih st (batch ++ [res]) (count + 1) (by simp) hc'

/-- The core of batch-size invariance: two loop states with equal virtual
stores (committed rows plus pending batch) and validated stores whenever
their batch is empty produce the same committed outcome, for any two batch
sizes. -/
theorem resourcesLoop_batch_agnostic (c : Caches) (hub : Nat) (rmap : List (Int × Nat))
    (now : PyDateTime) (b1 b2 : Nat) (rows : List SrcResource) :
    ∀ st1 batch1 st2 batch2 count,
      addResources st1 batch1 = addResources st2 batch2 →
      (batch1 = [] → resourcesCheckB st1 = true) →
      (batch2 = [] → resourcesCheckB st2 = true) →
      (resourcesLoop c hub rmap now b1 st1 batch1 count rows).toOption
        = (resourcesLoop c hub rmap now b2 st2 batch2 count rows).toOption := by
  induction rows with
  | nil =>
    intro st1 batch1 st2 batch2 count hv h1 h2
    simp only [resourcesLoop]
    cases batch1 with
    | nil =>
      cases batch2 with
      | nil =>
        have hst : st1 = st2 := by
          rw [← addResources_nil st1, ← addResources_nil st2]
          exact hv
        rw [hst]
      | cons y ys =>
        have hst : addResources st2 (y :: ys) = st1 := by
          rw [← hv, addResources_nil]
        simp only [List.isEmpty_nil, List.isEmpty_cons, hst, h1 rfl]
        rfl
    | cons x xs =>
      cases batch2 with
      | nil =>
        have hst : addResources st1 (x :: xs) = st2 := by
          rw [hv, addResources_nil]
        simp only [List.isEmpty_nil, List.isEmpty_cons, hst, h2 rfl]
        rfl
      | cons y ys =>
        simp only [List.isEmpty_cons, hv]
        rfl
  | cons r rest ih =>
    intro st1 batch1 st2 batch2 count hv h1 h2
    simp only [resourcesLoop]
    cases hres : rowToResource c hub rmap now r with
    | error e => rfl
    | ok res =>
      dsimp only
      have hv' : addResources st1 (batch1 ++ [res]) = addResources st2 (batch2 ++ [res]) := by
        rw [addResources_append_single, addResources_append_single, hv]
      by_cases hf1 : b1 ≤ (batch1 ++ [res]).length <;>
        by_cases hf2 : b2 ≤ (batch2 ++ [res]).length
      · rw [if_pos hf1, if_pos hf2]
        by_cases hcv : resourcesCheckB (addResources st1 (batch1 ++ [res])) = true
        · rw [if_pos hcv, if_pos (hv' ▸ hcv)]
          refine ih _ [] _ [] (count + 1) ?_ (fun _ => hcv) (fun _ => hv' ▸ hcv)
          rw [addResources_nil, addResources_nil]
          exact hv'
        · rw [if_neg hcv, if_neg (fun hh => hcv (hv' ▸ hh))]
      · rw [if_pos hf1, if_neg hf2]
        by_cases hcv : resourcesCheckB (addResources st1 (batch1 ++ [res])) = true
        · rw [if_pos hcv]
          refine ih _ [] st2 (batch2 ++ [res]) (count + 1) ?_ (fun _ => hcv)
            (fun hh => absurd hh (by simp))
          rw [addResources_nil]
          exact hv'
        · rw [if_neg hcv]
          have hdead := resourcesLoop_dead c hub rmap now b2 rest st2 (batch2 ++ [res])
            (count + 1) (by simp) (by rw [← hv']; exact Bool.not_eq_true _ ▸ hcv)
          rw [hdead]
          rfl
      · rw [if_neg hf1, if_pos hf2]
        by_cases hcv : resourcesCheckB (addResources st2 (batch2 ++ [res])) = true
        · rw [if_pos hcv]
          refine ih st1 (batch1 ++ [res]) _ [] (count + 1) ?_
            (fun hh => absurd hh (by simp)) (fun _ => hcv)
          rw [addResources_nil]
          exact hv'
        · rw [if_neg hcv]
          have hdead := resourcesLoop_dead c hub rmap now b1 rest st1 (batch1 ++ [res])
            (count + 1) (by simp) (by rw [hv']; exact Bool.not_eq_true _ ▸ hcv)
          rw [hdead]
          rfl
      · rw [if_neg hf1, if_neg hf2]
        exact ih st1 (batch1 ++ [res]) st2 (batch2 ++ [res]) (count + 1) hv'
          (fun hh => absurd hh (by simp)) (fun hh => absurd hh (by simp))

/-- C7.  Migrating the same source rows with any two write-batch sizes
produces the same committed outcome: on success the final stores and row
counts coincide exactly (so every table has the same row counts and field
values), and a failing run commits nothing under either batch size (the
single enclosing transaction is rolled back), so the committed content
again coincides.  The hypothesis is the standing database invariant that
the initial store satisfies its own uniqueness constraints. -/
theorem migrate_hub_resources_batch_invariant (st : Store) (c : Caches)
    (rows : List SrcResource) (hub : Nat) (rmap smap : List (Int × Nat))
    (now : PyDateTime) (b1 b2 : Nat) (h : resourcesCheckB st = true) :
    (migrate_hub_resources st c rows hub rmap smap now b1).toOption
      = (migrate_hub_resources st c rows hub rmap smap now b2).toOption := by
  unfold migrate_hub_resources
  exact resourcesLoop_batch_agnostic c hub rmap now b1 b2 _ st [] st [] 0 rfl
    (fun _ => h) (fun _ => h)

/-- Witness for C7 at batch sizes 1 and 1000 on a one-row snapshot over
the empty store. -/
theorem migrate_hub_resources_batch_invariant_witness :
    resourcesCheckB emptyStore = true ∧
    (migrate_hub_resources emptyStore emptyCaches [fixtureSrcRow] 1 [] [] fixtureNow1 1).toOption
      = (migrate_hub_resources emptyStore emptyCaches [fixtureSrcRow] 1 [] []
          fixtureNow1 1000).toOption :=
  ⟨rfl, migrate_hub_resources_batch_invariant emptyStore emptyCaches [fixtureSrcRow] 1 [] []
    fixtureNow1 1 1000 rfl⟩

/-- C8, counterexample.  In c8Rows two source rows share the pair
(Homo Sapiens, hg19), yet species plus genome extraction from an empty
target creates zero Genome rows for it: the canonical spelling for
taxonomy id 9606 is Homo sapiens, so Homo Sapiens is never cached and the
pair is skipped. -/
theorem genome_shared_pair_creates_no_row :
    (c8Rows.filter (fun r => r.species = some "Homo Sapiens" ∧ r.genome = some "hg19")).length
        = 2 ∧
    (do
      let (st, c) ← extract_and_create_species emptyStore emptyCaches c8Rows
      extract_and_create_genomes st c c8Rows).map
        (fun (p : Store × Caches) => (p.1.genomes.length, p.1.species.map (fun (r : SpeciesRow) => r.scientific_name)))
      = .ok (0, ["Homo sapiens"]) := by
  exact ⟨rfl, rfl⟩

end HubsMigrate

/-! ### The angle-bracket acceptance property (C10) -/

namespace HubsMigrate

theorem endAnchorB_append_gt (l : List Char) : endAnchorB (l ++ ['>']) = false := by
  cases l with
  | nil => rfl
  | cons x xs => cases xs <;> rfl

theorem tmGo_append_gt (rest : List Char) : ∀ accRev, '\n' ∉ rest →
    tmGo accRev (rest ++ ['>']) = some (accRev.reverse ++ rest) := by
  induction rest with
  | nil =>
    intro accRev _
    simp [tmGo, endAnchorB]
  | cons c rest ih =>
    intro accRev h
    have hc : ¬(c = '\n') := fun hh => h (hh ▸ List.mem_cons_self c rest)
    have hnl : '\n' ∉ rest := fun hm => h (List.mem_cons_of_mem c hm)
    have unf : tmGo accRev ((c :: rest) ++ ['>'])
        = if (decide (c = '>') && endAnchorB (rest ++ ['>'])) = true then some accRev.reverse
          else if c = '\n' then none else tmGo (c :: accRev) (rest ++ ['>']) := rfl
    rw [unf, endAnchorB_append_gt, Bool.and_false]
    simp only [Bool.false_eq_true, if_false]
    rw [if_neg hc, ih (c :: accRev) hnl]
    simp

theorem tailMatch_append_gt (text : List Char) (hne : text ≠ []) (hnl : '\n' ∉ text) :
    tailMatch (text ++ ['>']) = some text := by
  cases text with
  | nil => exact absurd rfl hne
  | cons x xs =>
    have hx : ¬(x = '\n') := fun hh => hnl (hh ▸ List.mem_cons_self x xs)
    simp only [List.cons_append, tailMatch]
    rw [if_neg hx, tmGo_append_gt xs [x] (fun hm => hnl (List.mem_cons_of_mem x hm))]
    simp

theorem goAttempt_no_lt (aRev rest : List Char) (h : '<' ∉ rest) :
    goAttempt aRev rest = none := by
  unfold goAttempt
  split
  · next t2 heq =>
    exfalso
    have hmem : '<' ∈ rest := by
      have hsub := List.dropWhile_sublist (l := rest) (p := isPySpace)
      have : '<' ∈ rest.dropWhile isPySpace := by
        rw [heq]
        exact List.mem_cons_self _ _
      exact hsub.subset this
    exact h hmem
  · rfl

theorem goA_no_lt (l : List Char) : ∀ aRev, '<' ∉ l → goA aRev l = none := by
  induction l with
  | nil => intro aRev _; rfl
  | cons c t ih =>
    intro aRev h
    simp only [goA]
    rw [goAttempt_no_lt aRev (c :: t) h]
    have hc : ¬(c = '\n') ∨ True := Or.inr trivial
    by_cases hcn : c = '\n'
    · rw [if_pos hcn]
    · rw [if_neg hcn]
      exact ih (c :: aRev) (fun hm => h (List.mem_cons_of_mem c hm))

theorem goAttempt_succeeds (aRev mid text : List Char)
    (hmid : ∀ ch ∈ mid, isPySpace ch = true) (htx : text ≠ []) (htnl : '\n' ∉ text) :
    goAttempt aRev (mid ++ ('<' :: (text ++ ['>']))) = some (aRev.reverse, text) := by
  unfold goAttempt
  have hmidnil : mid.dropWhile isPySpace = [] := by
    rw [List.dropWhile_eq_nil_iff]
    exact hmid
  rw [List.dropWhile_append, hmidnil]
  simp only [List.isEmpty_nil, if_true]
  rw [List.dropWhile_cons]
  have : isPySpace '<' = false := rfl
  rw [this]
  simp only [Bool.false_eq_true, if_false]
  rw [tailMatch_append_gt text htx htnl]
  rfl

theorem goAttempt_core_fails (aRev l rest : List Char) (hne : l ≠ [])
    (h1 : ∀ ch ∈ l, ¬(ch = '<'))
    (hl : ∀ ch, l.getLast? = some ch → isPySpace ch = false) :
    goAttempt aRev (l ++ rest) = none := by
  obtain ⟨last, hlast⟩ := Option.isSome_iff_exists.mp (List.getLast?_isSome.mpr hne)
  have hlastmem : last ∈ l := by
    obtain ⟨hn, rfl⟩ := List.mem_getLast?_eq_getLast (by rw [hlast]; exact rfl)
    exact List.getLast_mem hn
  have hdwne : l.dropWhile isPySpace ≠ [] := by
    intro hnil
    rw [List.dropWhile_eq_nil_iff] at hnil
    have := hnil last hlastmem
    rw [hl last hlast] at this
    exact Bool.false_ne_true this
  unfold goAttempt
  rw [List.dropWhile_append, if_neg (by simp [List.isEmpty_iff, hdwne])]
  cases hdw : l.dropWhile isPySpace with
  | nil => exact absurd hdw hdwne
  | cons h tl =>
    have hmem : h ∈ l := (List.dropWhile_sublist (p := isPySpace)).subset
      (by rw [hdw]; exact List.mem_cons_self _ _)
    have hhne : ¬(h = '<') := h1 h hmem
    simp only [List.cons_append]
    split
    · next t2 heq =>
      exfalso
      injection heq with hh1 _
      exact hhne hh1
    · rfl

theorem goA_finds (core : List Char) : ∀ (aRev mid text : List Char),
    (∀ ch ∈ core, ¬(ch = '<') ∧ ¬(ch = '\n')) →
    (∀ ch, core.getLast? = some ch → isPySpace ch = false) →
    (∀ ch ∈ mid, isPySpace ch = true) →
    text ≠ [] → '\n' ∉ text →
    goA aRev (core ++ (mid ++ ('<' :: (text ++ ['>']))))
      = some (aRev.reverse ++ core, text) := by
  induction core with
  | nil =>
    intro aRev mid text _ _ hmid htx htnl
    rw [List.nil_append]
    cases mid with
    | nil =>
      rw [List.nil_append]
      simp only [goA]
      rw [show ('<' :: (text ++ ['>'])) = ([] ++ ('<' :: (text ++ ['>']))) from rfl,
        goAttempt_succeeds aRev [] text (by intro ch hch; cases hch) htx htnl]
      simp
    | cons m ms =>
      rw [List.cons_append]
      simp only [goA]
      rw [show (m :: (ms ++ ('<' :: (text ++ ['>']))))
            = ((m :: ms) ++ ('<' :: (text ++ ['>']))) from rfl,
        goAttempt_succeeds aRev (m :: ms) text hmid htx htnl]
      simp
  | cons c core ih =>
    intro aRev mid text hcore hlast hmid htx htnl
    rw [List.cons_append]
    simp only [goA]
    rw [show (c :: (core ++ (mid ++ ('<' :: (text ++ ['>'])))))
          = ((c :: core) ++ (mid ++ ('<' :: (text ++ ['>'])))) from rfl,
      goAttempt_core_fails aRev (c :: core) _ (List.cons_ne_nil c core)
        (fun ch hch => (hcore ch hch).1) hlast]
    rw [if_neg (hcore c (List.mem_cons_self c core)).2]
    have hlast' : ∀ ch, core.getLast? = some ch → isPySpace ch = false := by
      intro ch hch
      cases core with
      | nil => cases hch
      | cons d ds =>
        exact hlast ch (by rw [List.getLast?_cons_cons]; exact hch)
    rw [ih (c :: aRev) mid text (fun ch hch => hcore ch (List.mem_cons_of_mem c hch))
      hlast' hmid htx htnl]
    simp

theorem dropWhile_id_of_head (l : List Char)
    (hh : ∀ x, l.head? = some x → isPySpace x = false) :
    l.dropWhile isPySpace = l := by
  cases l with
  | nil => rfl
  | cons c t =>
    rw [List.dropWhile_cons, hh c rfl]
    simp

theorem pyStripChars_id (l : List Char)
    (hh : ∀ x, l.head? = some x → isPySpace x = false)
    (hl : ∀ x, l.getLast? = some x → isPySpace x = false) :
    pyStripChars l = l := by
  unfold pyStripChars
  rw [dropWhile_id_of_head l hh]
  rw [dropWhile_id_of_head l.reverse (by
    intro x hx
    rw [List.head?_reverse] at hx
    exact hl x hx)]
  exact List.reverse_reverse l

theorem bracketed_name_data (name text : String) :
    (name ++ " <" ++ text ++ ">").data
      = name.data ++ ([' '] ++ ('<' :: (text.data ++ ['>']))) := by
  simp only [String.data_append, List.append_assoc]
  rfl

theorem bracketed_bare_data (text : String) :
    ("<" ++ text ++ ">").data = '<' :: (text.data ++ ['>']) := by
  simp only [String.data_append, List.append_assoc]
  rfl

theorem matchNameAngle_finds (name text : String)
    (hne : name.data ≠ [])
    (hh : ∀ x, name.data.head? = some x → isPySpace x = false)
    (hl : ∀ x, name.data.getLast? = some x → isPySpace x = false)
    (hlt : '<' ∉ name.data) (hnl : '\n' ∉ name.data)
    (htx : text.data ≠ []) (htnl : '\n' ∉ text.data) :
    matchNameAngle (name.data ++ ([' '] ++ ('<' :: (text.data ++ ['>']))))
      = some (name.data, text.data) := by
  cases hnd : name.data with
  | nil => exact absurd hnd hne
  | cons c nd =>
    rw [List.cons_append]
    simp only [matchNameAngle]
    rw [if_neg (by
      intro hcn
      exact hnl (hnd ▸ hcn ▸ List.mem_cons_self c nd))]
    rw [goA_finds nd [c] [' '] text.data
      (by
        intro ch hch
        have hmem : ch ∈ name.data := hnd ▸ List.mem_cons_of_mem c hch
        exact ⟨fun hq => hlt (hq ▸ hmem), fun hq => hnl (hq ▸ hmem)⟩)
      (by
        intro ch hch
        cases nd with
        | nil => cases hch
        | cons d ds =>
          refine hl ch ?_
          rw [hnd, List.getLast?_cons_cons]
          exact hch)
      (by
        intro ch hch
        cases hch with
        | head => rfl
        | tail _ hq => cases hq)
      htx htnl]
    simp

theorem string_ne_empty_of_data (s : String) (h : s.data ≠ []) : s ≠ "" := by
  intro hq
  exact h (by rw [hq])

/-- C10.  The angle-bracket patterns accept any non-empty bracketed text
with no validation of its content: for inputs shaped Name-space-bracketed
text (with a whitespace-trimmed, bracket-free, newline-free name) and for
bare bracketed text, the returned email is the trimmed bracketed text,
whether or not it contains an at sign. -/
theorem parse_maintainer_email_accepts_bracketed_text :
    (∀ name text : String, name ≠ "" →
      (∀ x, name.data.head? = some x → isPySpace x = false) →
      (∀ x, name.data.getLast? = some x → isPySpace x = false) →
      '<' ∉ name.data → '\n' ∉ name.data →
      text ≠ "" → '\n' ∉ text.data →
      parse_maintainer_email (some (name ++ " <" ++ text ++ ">"))
        = (some name, some (pyStrip text))) ∧
    (∀ text : String, text ≠ "" → '<' ∉ text.data → '\n' ∉ text.data →
      parse_maintainer_email (some ("<" ++ text ++ ">"))
        = (none, some (pyStrip text))) := by
  constructor
  · intro name text hne hh hl hlt hnl hte htnl
    have hndne : name.data ≠ [] := by
      intro hq
      exact hne (by cases name; simp_all)
    have htdne : text.data ≠ [] := by
      intro hq
      exact hte (by cases text; simp_all)
    have hLdata : (name ++ " <" ++ text ++ ">").data
        = name.data ++ ([' '] ++ ('<' :: (text.data ++ ['>']))) := bracketed_name_data name text
    have hm0 : (name ++ " <" ++ text ++ ">") ≠ "" := by
      refine string_ne_empty_of_data _ ?_
      rw [hLdata]
      intro hq
      exact hndne (List.append_eq_nil.mp hq).1
    have hstripid : pyStripChars ((name ++ " <" ++ text ++ ">").data)
        = (name ++ " <" ++ text ++ ">").data := by
      refine pyStripChars_id _ ?_ ?_
      · intro x hx
        rw [hLdata] at hx
        cases hnd : name.data with
        | nil => exact absurd hnd hndne
        | cons c ndd =>
          rw [hnd, List.cons_append] at hx
          cases hx
          exact hh x (by rw [hnd]; rfl)
      · intro x hx
        rw [hLdata, List.getLast?_append, List.getLast?_append] at hx
        rw [show ('<' :: (text.data ++ ['>'])).getLast? = some '>' by
          rw [show ('<' :: (text.data ++ ['>'])) = (('<' :: text.data) ++ ['>']) from rfl]
          exact List.getLast?_concat _] at hx
        cases hx
        rfl
    simp only [parse_maintainer_email]
    rw [if_neg hm0]
    have hsdata : (pyStrip (name ++ " <" ++ text ++ ">")).data
        = name.data ++ ([' '] ++ ('<' :: (text.data ++ ['>']))) := by
      show pyStripChars ((name ++ " <" ++ text ++ ">").data) = _
      rw [hstripid, hLdata]
    rw [hsdata, matchNameAngle_finds name text hndne hh hl hlt hnl htdne htnl]
    have hnmid : pyStrip ⟨name.data⟩ = name := by
      show String.mk (pyStripChars name.data) = name
      rw [pyStripChars_id name.data hh hl]
    dsimp only
    rw [hnmid, if_neg hne]
  · intro text hte hlt htnl
    have htdne : text.data ≠ [] := by
      intro hq
      exact hte (by cases text; simp_all)
    have hLdata : ("<" ++ text ++ ">").data = '<' :: (text.data ++ ['>']) :=
      bracketed_bare_data text
    have hm0 : ("<" ++ text ++ ">") ≠ "" := by
      refine string_ne_empty_of_data _ ?_
      rw [hLdata]
      intro hq
      cases hq
    have hstripid : pyStripChars (("<" ++ text ++ ">").data)
        = ("<" ++ text ++ ">").data := by
      refine pyStripChars_id _ ?_ ?_
      · intro x hx
        rw [hLdata] at hx
        cases hx
        rfl
      · intro x hx
        rw [hLdata] at hx
        rw [show ('<' :: (text.data ++ ['>'])).getLast? = some '>' by
          rw [show ('<' :: (text.data ++ ['>'])) = (('<' :: text.data) ++ ['>']) from rfl]
          exact List.getLast?_concat _] at hx
        cases hx
        rfl
    simp only [parse_maintainer_email]
    rw [if_neg hm0]
    have hsdata : (pyStrip ("<" ++ text ++ ">")).data = '<' :: (text.data ++ ['>']) := by
      show pyStripChars (("<" ++ text ++ ">").data) = _
      rw [hstripid, hLdata]
    rw [hsdata]
    have hmna : matchNameAngle ('<' :: (text.data ++ ['>'])) = none := by
      simp only [matchNameAngle]
      rw [if_neg (by intro hq; cases hq)]
      refine goA_no_lt _ ['<'] ?_
      intro hmem
      cases List.mem_append.mp hmem with
      | inl hq => exact hlt hq
      | inr hq => exact absurd hq (by decide)
    rw [hmna]
    have hma : matchAngle ('<' :: (text.data ++ ['>'])) = some text.data := by
      simp only [matchAngle]
      exact tailMatch_append_gt text.data htdne htnl
    rw [hma]

/-- Witness for C10 at the concrete inputs Jane and notanemail. -/
theorem parse_maintainer_email_accepts_bracketed_text_witness :
    parse_maintainer_email (some ("Jane" ++ " <" ++ "notanemail" ++ ">"))
        = (some "Jane", some (pyStrip "notanemail")) ∧
    parse_maintainer_email (some ("<" ++ "notanemail" ++ ">"))
        = (none, some (pyStrip "notanemail")) := by
  constructor
  · refine parse_maintainer_email_accepts_bracketed_text.1 "Jane" "notanemail"
      (by decide) ?_ ?_ (by decide) (by decide) (by decide) (by decide)
    · intro x hx
      rw [show ("Jane".data).head? = some 'J' from rfl] at hx
      cases hx
      rfl
    · intro x hx
      rw [show ("Jane".data).getLast? = some 'e' from rfl] at hx
      cases hx
      rfl
  · exact parse_maintainer_email_accepts_bracketed_text.2 "notanemail"
      (by decide) (by decide) (by decide)

theorem memB_iff [DecidableEq α] (a : α) (l : List α) : memB a l = true ↔ a ∈ l := by
  induction l with
  | nil => simp [memB]
  | cons x t ih =>
    simp only [memB]
    by_cases hx : x = a
    · simp [hx]
    · simp only [if_neg hx, ih, List.mem_cons]
      constructor
      · exact Or.inr
      · rintro (hq | hq)
        · exact absurd hq.symm hx
        · exact hq

theorem memB_false_iff [DecidableEq α] (a : α) (l : List α) : memB a l = false ↔ a ∉ l := by
  constructor
  · intro h hm
    rw [(memB_iff a l).mpr hm] at h
    cases h
  · intro h
    cases hm : memB a l with
    | false => rfl
    | true => exact absurd ((memB_iff a l).mp hm) h

theorem dedupFirstGo_subset [DecidableEq α] (l : List α) :
    ∀ seen a, a ∈ dedupFirstGo seen l → a ∈ l := by
  induction l with
  | nil => intro seen a h; cases h
  | cons x t ih =>
    intro seen a h
    simp only [dedupFirstGo] at h
    by_cases hx : memB x seen
    · rw [if_pos hx] at h
      exact List.mem_cons_of_mem x (ih seen a h)
    · rw [if_neg hx] at h
      cases h with
      | head => exact List.mem_cons_self x t
      | tail _ hq => exact List.mem_cons_of_mem x (ih (x :: seen) a hq)

theorem dedupFirstGo_complete [DecidableEq α] (l : List α) :
    ∀ seen a, a ∈ l → memB a seen = false → a ∈ dedupFirstGo seen l := by
  induction l with
  | nil => intro seen a h; cases h
  | cons x t ih =>
    intro seen a h hs
    simp only [dedupFirstGo]
    by_cases hx : memB x seen
    · rw [if_pos hx]
      cases h with
      | head =>
        rw [hs] at hx
        cases hx
      | tail _ hq => exact ih seen a hq hs
    · rw [if_neg hx]
      cases h with
      | head => exact List.mem_cons_self _ _
      | tail _ hq =>
        by_cases hax : x = a
        · exact hax ▸ List.mem_cons_self _ _
        · refine List.mem_cons_of_mem _ (ih (x :: seen) a hq ?_)
          simp only [memB]
          rw [if_neg hax]
          exact hs

theorem dedupFirst_mem [DecidableEq α] (l : List α) (a : α) :
    a ∈ dedupFirst l ↔ a ∈ l := by
  constructor
  · exact dedupFirstGo_subset l [] a
  · intro h
    exact dedupFirstGo_complete l [] a h rfl

theorem insertLe_mem (le : α → α → Bool) (a x : α) (l : List α) :
    x ∈ insertLe le a l ↔ x = a ∨ x ∈ l := by
  induction l with
  | nil => simp [insertLe]
  | cons b t ih =>
    simp only [insertLe]
    by_cases hb : le b a
    · rw [if_pos hb]
      simp only [List.mem_cons, ih]
      tauto
    · rw [if_neg hb]
      simp only [List.mem_cons]

theorem sortByLe_mem (le : α → α → Bool) (l : List α) (x : α) :
    x ∈ sortByLe le l ↔ x ∈ l := by
  suffices h : ∀ acc, x ∈ l.foldl (fun acc a => insertLe le a acc) acc ↔ x ∈ l ∨ x ∈ acc by
    have := h []
    simpa [sortByLe] using this
  induction l with
  | nil => intro acc; simp
  | cons b t ih =>
    intro acc
    simp only [List.foldl_cons, ih, insertLe_mem, List.mem_cons]
    tauto

theorem insertLe_pairwise (le : α → α → Bool)
    (htot : ∀ a b, le a b = true ∨ le b a = true)
    (htrans : ∀ a b c, le a b = true → le b c = true → le a c = true)
    (a : α) (l : List α) (h : List.Pairwise (fun x y => le x y = true) l) :
    List.Pairwise (fun x y => le x y = true) (insertLe le a l) := by
  induction l with
  | nil => simp [insertLe]
  | cons b t ih =>
    simp only [insertLe]
    rcases List.pairwise_cons.mp h with ⟨hb, ht⟩
    by_cases hba : le b a
    · rw [if_pos hba]
      refine List.pairwise_cons.mpr ⟨?_, ih ht⟩
      intro y hy
      rcases (insertLe_mem le a y t).mp hy with hq | hq
      · exact hq ▸ hba
      · exact hb y hq
    · rw [if_neg hba]
      have hab : le a b = true := by
        rcases htot a b with hq | hq
        · exact hq
        · exact absurd hq hba
      refine List.pairwise_cons.mpr ⟨?_, h⟩
      intro y hy
      cases hy with
      | head => exact hab
      | tail _ hq => exact htrans a b y hab (hb y hq)

theorem sortByLe_pairwise (le : α → α → Bool)
    (htot : ∀ a b, le a b = true ∨ le b a = true)
    (htrans : ∀ a b c, le a b = true → le b c = true → le a c = true)
    (l : List α) : List.Pairwise (fun x y => le x y = true) (sortByLe le l) := by
  suffices h : ∀ acc, List.Pairwise (fun x y => le x y = true) acc →
      List.Pairwise (fun x y => le x y = true) (l.foldl (fun acc a => insertLe le a acc) acc) by
    exact h [] List.Pairwise.nil
  induction l with
  | nil => intro acc hacc; exact hacc
  | cons b t ih =>
    intro acc hacc
    exact ih (insertLe le b acc) (insertLe_pairwise le htot htrans b acc hacc)

theorem leTidCnt_total (a b : (String × Int) × Nat) :
    leTidCnt a b = true ∨ leTidCnt b a = true := by
  simp only [leTidCnt, Bool.or_eq_true, Bool.and_eq_true, decide_eq_true_eq]
  omega

theorem leTidCnt_trans (a b c : (String × Int) × Nat) :
    leTidCnt a b = true → leTidCnt b c = true → leTidCnt a c = true := by
  simp only [leTidCnt, Bool.or_eq_true, Bool.and_eq_true, decide_eq_true_eq]
  omega

theorem firstPerTid_not_seen (l : List ((String × Int) × Nat)) :
    ∀ seen nm t, (nm, t) ∈ firstPerTid seen l → memB t seen = false := by
  induction l with
  | nil => intro seen nm t h; cases h
  | cons e rest ih =>
    obtain ⟨⟨nm₀, t₀⟩, c₀⟩ := e
    intro seen nm t h
    simp only [firstPerTid] at h
    by_cases hs : memB t₀ seen
    · rw [if_pos hs] at h
      exact ih seen nm t h
    · rw [if_neg hs] at h
      cases h with
      | head => exact (memB_false_iff t₀ seen).mpr (fun hm =>
          hs ((memB_iff t₀ seen).mpr hm))
      | tail _ hq =>
        have := ih (t₀ :: seen) nm t hq
        simp only [memB] at this
        by_cases ht : t₀ = t
        · rw [if_pos ht] at this
          cases this
        · rw [if_neg ht] at this
          exact this

theorem firstPerTid_mem_src (l : List ((String × Int) × Nat)) :
    ∀ seen nm t, (nm, t) ∈ firstPerTid seen l → ∃ c, ((nm, t), c) ∈ l := by
  induction l with
  | nil => intro seen nm t h; cases h
  | cons e rest ih =>
    obtain ⟨⟨nm₀, t₀⟩, c₀⟩ := e
    intro seen nm t h
    simp only [firstPerTid] at h
    by_cases hs : memB t₀ seen
    · rw [if_pos hs] at h
      obtain ⟨c, hc⟩ := ih seen nm t h
      exact ⟨c, List.mem_cons_of_mem _ hc⟩
    · rw [if_neg hs] at h
      cases h with
      | head => exact ⟨c₀, List.mem_cons_self _ _⟩
      | tail _ hq =>
        obtain ⟨c, hc⟩ := ih (t₀ :: seen) nm t hq
        exact ⟨c, List.mem_cons_of_mem _ hc⟩

theorem firstPerTid_max (l : List ((String × Int) × Nat)) :
    ∀ seen nm t, List.Pairwise (fun a b => leTidCnt a b = true) l →
    (nm, t) ∈ firstPerTid seen l →
    ∃ c, ((nm, t), c) ∈ l ∧ ∀ m c', ((m, t), c') ∈ l → c' ≤ c := by
  induction l with
  | nil => intro seen nm t _ h; cases h
  | cons e rest ih =>
    obtain ⟨⟨nm₀, t₀⟩, c₀⟩ := e
    intro seen nm t hp h
    rcases List.pairwise_cons.mp hp with ⟨hhead, htail⟩
    simp only [firstPerTid] at h
    by_cases hs : memB t₀ seen
    · rw [if_pos hs] at h
      have htns := firstPerTid_not_seen rest seen nm t h
      have htne : t₀ ≠ t := by
        intro hq
        rw [hq] at hs
        rw [htns] at hs
        cases hs
      obtain ⟨c, hc, hmax⟩ := ih seen nm t htail h
      refine ⟨c, List.mem_cons_of_mem _ hc, ?_⟩
      intro m c' hm
      cases hm with
      | head => exact absurd rfl htne
      | tail _ hq => exact hmax m c' hq
    · rw [if_neg hs] at h
      cases h with
      | head =>
        refine ⟨c₀, List.mem_cons_self _ _, ?_⟩
        intro m c' hm
        cases hm with
        | head => rfl
        | tail _ hq =>
          have := hhead _ hq
          simp only [leTidCnt, Bool.or_eq_true, Bool.and_eq_true, decide_eq_true_eq] at this
          omega
      | tail _ hq =>
        have htns := firstPerTid_not_seen rest (t₀ :: seen) nm t hq
        have htne : t₀ ≠ t := by
          intro hx
          simp only [memB, if_pos hx] at htns
          cases htns
        obtain ⟨c, hc, hmax⟩ := ih (t₀ :: seen) nm t htail hq
        refine ⟨c, List.mem_cons_of_mem _ hc, ?_⟩
        intro m c' hm
        cases hm with
        | head => exact absurd rfl htne
        | tail _ hq2 => exact hmax m c' hq2

theorem firstPerTid_complete (l : List ((String × Int) × Nat)) :
    ∀ seen nm t c, ((nm, t), c) ∈ l → memB t seen = false →
    ∃ nm', (nm', t) ∈ firstPerTid seen l := by
  induction l with
  | nil => intro seen nm t c h; cases h
  | cons e rest ih =>
    obtain ⟨⟨nm₀, t₀⟩, c₀⟩ := e
    intro seen nm t c h hns
    simp only [firstPerTid]
    by_cases hs : memB t₀ seen
    · rw [if_pos hs]
      cases h with
      | head =>
        rw [hns] at hs
        cases hs
      | tail _ hq => exact ih seen nm t c hq hns
    · rw [if_neg hs]
      by_cases ht : t₀ = t
      · exact ⟨nm₀, ht ▸ List.mem_cons_self _ _⟩
      · cases h with
        | head => exact absurd rfl ht
        | tail _ hq =>
          obtain ⟨nm', hm⟩ := ih (t₀ :: seen) nm t c hq (by
            simp only [memB, if_neg ht]
            exact hns)
          exact ⟨nm', List.mem_cons_of_mem _ hm⟩

theorem firstPerTid_tids_pairwise (l : List ((String × Int) × Nat)) :
    ∀ seen, List.Pairwise (fun p q => p.2 ≠ q.2) (firstPerTid seen l) := by
  induction l with
  | nil => intro seen; exact List.Pairwise.nil
  | cons e rest ih =>
    obtain ⟨⟨nm₀, t₀⟩, c₀⟩ := e
    intro seen
    simp only [firstPerTid]
    by_cases hs : memB t₀ seen
    · rw [if_pos hs]
      exact ih seen
    · rw [if_neg hs]
      refine List.pairwise_cons.mpr ⟨?_, ih (t₀ :: seen)⟩
      intro q hq
      obtain ⟨qn, qt⟩ := q
      have := firstPerTid_not_seen rest (t₀ :: seen) qn qt hq
      intro hx
      have hx2 : t₀ = qt := hx
      rw [← hx2] at this
      simp only [memB, if_pos rfl] at this
      cases this

theorem groupCounts_mem [DecidableEq α] (l : List α) (k : α) (c : Nat)
    (h : (k, c) ∈ groupCounts l) : k ∈ l ∧ c = countOcc k l := by
  unfold groupCounts at h
  obtain ⟨k', hk', heq⟩ := List.mem_map.mp h
  obtain ⟨h1, h2⟩ := Prod.mk.injEq .. ▸ heq
  exact ⟨h1 ▸ (dedupFirst_mem l k').mp hk', h2.symm.trans (by rw [h1])⟩

theorem groupCounts_complete [DecidableEq α] (l : List α) (k : α) (h : k ∈ l) :
    (k, countOcc k l) ∈ groupCounts l := by
  unfold groupCounts
  exact List.mem_map.mpr ⟨k, (dedupFirst_mem l k).mpr h, rfl⟩

theorem dictGet_dictSet_ne [DecidableEq κ] (d : List (κ × β)) (k k' : κ) (v : β)
    (h : k ≠ k') : dictGet (dictSet d k v) k' = dictGet d k' := by
  induction d with
  | nil => simp [dictSet, dictGet, h]
  | cons e t ih =>
    obtain ⟨k₀, v₀⟩ := e
    simp only [dictSet]
    by_cases hk : k₀ = k
    · rw [if_pos hk]
      simp only [dictGet]
      rw [if_neg h, if_neg (hk ▸ h)]
    · rw [if_neg hk]
      simp only [dictGet]
      by_cases hk' : k₀ = k'
      · rw [if_pos hk', if_pos hk']
      · rw [if_neg hk', if_neg hk']
        exact ih

theorem dictSet_append [DecidableEq κ] (d : List (κ × β)) (k : κ) (v : β)
    (h : dictGet d k = none) : dictSet d k v = d ++ [(k, v)] := by
  induction d with
  | nil => rfl
  | cons e t ih =>
    obtain ⟨k₀, v₀⟩ := e
    simp only [dictGet] at h
    by_cases hk : k₀ = k
    · rw [if_pos hk] at h
      cases h
    · rw [if_neg hk] at h
      simp only [dictSet, if_neg hk, List.cons_append]
      rw [ih h]

theorem cacheKeysWith_eq_append (entries : List (String × Int)) :
    ∀ d n, (∀ p ∈ entries, dictGet d p.1 = none) →
    List.Pairwise (fun p q => p.1 ≠ q.1) entries →
    cacheKeysWith d n entries = d ++ mkCachePairs n entries := by
  induction entries with
  | nil => intro d n _ _; simp [cacheKeysWith, mkCachePairs]
  | cons e rest ih =>
    obtain ⟨nm, t⟩ := e
    intro d n hget hp
    rcases List.pairwise_cons.mp hp with ⟨hh, ht⟩
    simp only [cacheKeysWith, mkCachePairs]
    rw [ih (dictSet d nm (n + 1)) (n + 1) (by
      intro p hp2
      rw [dictGet_dictSet_ne d nm p.1 (n + 1) (fun hq => hh p hp2 hq)]
      exact hget p (List.mem_cons_of_mem _ hp2)) ht]
    rw [dictSet_append d nm (n + 1) (hget (nm, t) (List.mem_cons_self _ _))]
    simp

theorem dictGet_append_left [DecidableEq κ] (d d' : List (κ × β)) (k : κ)
    (h : dictGet d k = none) : dictGet (d ++ d') k = dictGet d' k := by
  induction d with
  | nil => rfl
  | cons e t ih =>
    obtain ⟨k₀, v₀⟩ := e
    simp only [dictGet] at h
    by_cases hk : k₀ = k
    · rw [if_pos hk] at h
      cases h
    · rw [if_neg hk] at h
      simp only [List.cons_append, dictGet, if_neg hk]
      exact ih h

theorem mkCachePairs_get_none (entries : List (String × Int)) :
    ∀ n nm, nm ∉ entries.map Prod.fst → dictGet (mkCachePairs n entries) nm = none := by
  induction entries with
  | nil => intro n nm _; rfl
  | cons e rest ih =>
    obtain ⟨nm₀, t₀⟩ := e
    intro n nm h
    simp only [List.map_cons, List.mem_cons] at h
    push_neg at h
    simp only [mkCachePairs, dictGet]
    rw [if_neg (fun hq => h.1 hq.symm)]
    exact ih (n + 1) nm h.2

theorem mkCachePairs_get_bound (entries : List (String × Int)) :
    ∀ n nm i, dictGet (mkCachePairs n entries) nm = some i → n + 1 ≤ i := by
  induction entries with
  | nil => intro n nm i h; cases h
  | cons e rest ih =>
    obtain ⟨nm₀, t₀⟩ := e
    intro n nm i h
    simp only [mkCachePairs, dictGet] at h
    by_cases hk : nm₀ = nm
    · rw [if_pos hk] at h
      cases h
      omega
    · rw [if_neg hk] at h
      have := ih (n + 1) nm i h
      omega

theorem mkCachePairs_inj (entries : List (String × Int)) :
    ∀ n a b i, dictGet (mkCachePairs n entries) a = some i →
      dictGet (mkCachePairs n entries) b = some i → a = b := by
  induction entries with
  | nil => intro n a b i h; cases h
  | cons e rest ih =>
    obtain ⟨nm₀, t₀⟩ := e
    intro n a b i ha hb
    simp only [mkCachePairs, dictGet] at ha hb
    by_cases hka : nm₀ = a <;> by_cases hkb : nm₀ = b
    · rw [← hka, ← hkb]
    · rw [if_pos hka] at ha
      rw [if_neg hkb] at hb
      cases ha
      have := mkCachePairs_get_bound rest (n + 1) b _ hb
      omega
    · rw [if_neg hka] at ha
      rw [if_pos hkb] at hb
      cases hb
      have := mkCachePairs_get_bound rest (n + 1) a _ ha
      omega
    · rw [if_neg hka] at ha
      rw [if_neg hkb] at hb
      exact ih (n + 1) a b i ha hb

theorem findSpeciesByTaxonomy_none_iff (l : List SpeciesRow) (t : Int) :
    findSpeciesByTaxonomy l t = none ↔ ∀ r ∈ l, r.taxonomy_id ≠ t := by
  induction l with
  | nil => simp [findSpeciesByTaxonomy]
  | cons r rest ih =>
    simp only [findSpeciesByTaxonomy]
    by_cases hr : r.taxonomy_id = t
    · rw [if_pos hr]
      constructor
      · intro h; cases h
      · intro h
        exact absurd hr (h r (List.mem_cons_self _ _))
    · rw [if_neg hr]
      rw [ih]
      constructor
      · intro h r' hr'
        cases hr' with
        | head => exact hr
        | tail _ hq => exact h r' hq
      · intro h r' hr'
        exact h r' (List.mem_cons_of_mem _ hr')

theorem findGenomeByKey_none_iff (l : List GenomeRow) (sid : Nat) (gb : String) :
    findGenomeByKey l sid gb = none
      ↔ ∀ g ∈ l, ¬(g.species_id = sid ∧ g.genome_build = gb) := by
  induction l with
  | nil => simp [findGenomeByKey]
  | cons g rest ih =>
    simp only [findGenomeByKey]
    by_cases hg : g.species_id = sid ∧ g.genome_build = gb
    · rw [if_pos hg]
      constructor
      · intro h; cases h
      · intro h
        exact absurd hg (h g (List.mem_cons_self _ _))
    · rw [if_neg hg]
      rw [ih]
      constructor
      · intro h g' hg'
        cases hg' with
        | head => exact hg
        | tail _ hq => exact h g' hq
      · intro h g' hg'
        exact h g' (List.mem_cons_of_mem _ hg')

theorem speciesCheckB_snoc (st : Store) (row : SpeciesRow)
    (hchk : speciesCheckB st = true)
    (hn : ∀ r ∈ st.species, r.scientific_name ≠ row.scientific_name)
    (ht : ∀ r ∈ st.species, r.taxonomy_id ≠ row.taxonomy_id) :
    speciesCheckB { st with species := st.species ++ [row] } = true := by
  unfold speciesCheckB at hchk ⊢
  rw [Bool.and_eq_true] at hchk
  simp only [List.map_append, List.map_cons, List.map_nil]
  rw [dupFree_append_one, dupFree_append_one, hchk.1, hchk.2]
  have h1 : memB row.scientific_name (st.species.map (·.scientific_name)) = false := by
    rw [memB_false_iff]
    intro hm
    obtain ⟨r, hr, hre⟩ := List.mem_map.mp hm
    exact hn r hr hre
  have h2 : memB row.taxonomy_id (st.species.map (·.taxonomy_id)) = false := by
    rw [memB_false_iff]
    intro hm
    obtain ⟨r, hr, hre⟩ := List.mem_map.mp hm
    exact ht r hr hre
  rw [h1, h2]
  rfl

theorem genomesCheckB_snoc (st : Store) (row : GenomeRow)
    (hchk : genomesCheckB st = true)
    (hk : ∀ g ∈ st.genomes, ¬(g.species_id = row.species_id ∧ g.genome_build = row.genome_build)) :
    genomesCheckB { st with genomes := st.genomes ++ [row] } = true := by
  unfold genomesCheckB at hchk ⊢
  simp only [List.map_append, List.map_cons, List.map_nil]
  rw [dupFree_append_one, hchk]
  have h1 : memB (row.species_id, row.genome_build)
      (st.genomes.map (fun g => (g.species_id, g.genome_build))) = false := by
    rw [memB_false_iff]
    intro hm
    obtain ⟨g, hg, hge⟩ := List.mem_map.mp hm
    obtain ⟨e1, e2⟩ := Prod.mk.injEq .. ▸ hge
    exact hk g hg ⟨e1, e2⟩
  rw [h1]
  rfl

theorem findSpeciesByTaxonomy_append_none (l : List SpeciesRow) (row : SpeciesRow) (t : Int)
    (h : findSpeciesByTaxonomy l t = none) (hr : row.taxonomy_id ≠ t) :
    findSpeciesByTaxonomy (l ++ [row]) t = none := by
  rw [findSpeciesByTaxonomy_none_iff] at h ⊢
  intro r hm
  rcases List.mem_append.mp hm with hq | hq
  · exact h r hq
  · cases hq with
    | head => exact hr
    | tail _ hq2 => cases hq2

theorem findGenomeByKey_append_none (l : List GenomeRow) (row : GenomeRow) (sid : Nat)
    (gb : String) (h : findGenomeByKey l sid gb = none)
    (hr : ¬(row.species_id = sid ∧ row.genome_build = gb)) :
    findGenomeByKey (l ++ [row]) sid gb = none := by
  rw [findGenomeByKey_none_iff] at h ⊢
  intro g hm
  rcases List.mem_append.mp hm with hq | hq
  · exact h g hq
  · cases hq with
    | head => exact hr
    | tail _ hq2 => cases hq2

theorem mkSpeciesRows_pairs (entries : List (String × Int)) :
    ∀ n r, r ∈ mkSpeciesRows n entries → (r.scientific_name, r.taxonomy_id) ∈ entries := by
  induction entries with
  | nil => intro n r h; cases h
  | cons e rest ih =>
    obtain ⟨nm, t⟩ := e
    intro n r h
    cases h with
    | head => exact List.mem_cons_self _ _
    | tail _ hq => exact List.mem_cons_of_mem _ (ih (n + 1) r hq)

theorem mkSpeciesRows_filter_tid (entries : List (String × Int)) (t : Int) :
    ∀ n, ((mkSpeciesRows n entries).filter (fun r => decide (r.taxonomy_id = t))).length
      = (entries.filter (fun p => decide (p.2 = t))).length := by
  induction entries with
  | nil => intro n; rfl
  | cons e rest ih =>
    obtain ⟨nm, t₀⟩ := e
    intro n
    simp only [mkSpeciesRows, List.filter_cons]
    by_cases ht : t₀ = t
    · rw [if_pos (by simpa using ht), if_pos (by simpa using ht)]
      simp only [List.length_cons, ih (n + 1)]
    · rw [if_neg (by simpa using ht), if_neg (by simpa using ht)]
      exact ih (n + 1)

/-- Characterization of the species creation loop on entries that are all
new: every entry takes the insert branch, appending sequentially-numbered
rows and caching each canonical name. -/
theorem speciesLoop_all_new (entries : List (String × Int)) :
    ∀ st c,
      (∀ p ∈ entries, dictGet c.species_cache p.1 = none) →
      (∀ p ∈ entries, findSpeciesByTaxonomy st.species p.2 = none) →
      (∀ p ∈ entries, ∀ r ∈ st.species, r.scientific_name ≠ p.1) →
      List.Pairwise (fun p q => p.1 ≠ q.1 ∧ p.2 ≠ q.2) entries →
      speciesCheckB st = true →
      speciesLoop st c entries
        = .ok ({ st with species := st.species ++ mkSpeciesRows st.species.length entries },
            { c with species_cache := cacheKeysWith c.species_cache st.species.length entries }) := by
  induction entries with
  | nil =>
    intro st c _ _ _ _ _
    simp [speciesLoop, mkSpeciesRows, cacheKeysWith]
  | cons e rest ih =>
    obtain ⟨nm, t⟩ := e
    intro st c hcache hfind hnames hdist hchk
    rcases List.pairwise_cons.mp hdist with ⟨hh, ht⟩
    have hc0 : dictGet c.species_cache nm = none := hcache (nm, t) (List.mem_cons_self _ _)
    have hf0 : findSpeciesByTaxonomy st.species t = none := hfind (nm, t) (List.mem_cons_self _ _)
    simp only [speciesLoop, hc0, Option.isSome_none, Bool.false_eq_true, if_false, hf0]
    have hrow : speciesCheckB
        { st with species := st.species ++ [⟨st.species.length + 1, nm, t⟩] } = true := by
      refine speciesCheckB_snoc st _ hchk ?_ ?_
      · intro r hr
        exact fun hq => hnames (nm, t) (List.mem_cons_self _ _) r hr hq
      · intro r hr
        exact (findSpeciesByTaxonomy_none_iff st.species t).mp hf0 r hr
    rw [if_pos hrow]
    have hrec := ih { st with species := st.species ++ [⟨st.species.length + 1, nm, t⟩] }
      { c with species_cache := dictSet c.species_cache nm (st.species.length + 1) }
      (by
        intro p hp
        rw [dictGet_dictSet_ne c.species_cache nm p.1 _ (fun hq => (hh p hp).1 hq)]
        exact hcache p (List.mem_cons_of_mem _ hp))
      (by
        intro p hp
        exact findSpeciesByTaxonomy_append_none st.species _ p.2
          (hfind p (List.mem_cons_of_mem _ hp)) (fun hq => (hh p hp).2 hq))
      (by
        intro p hp r hr
        rcases List.mem_append.mp hr with hq | hq
        · exact hnames p (List.mem_cons_of_mem _ hp) r hq
        · cases hq with
          | head => exact fun hx => (hh p hp).1 hx
          | tail _ hq2 => cases hq2)
      ht hrow
    rw [hrec]
    simp only [List.length_append, List.length_cons, List.length_nil, List.append_assoc]
    rfl

theorem species_data_mem_pairs (rows : List SrcResource) (nm : String) (t : Int)
    (h : (nm, t) ∈ species_data rows) : (nm, t) ∈ speciesPairs rows := by
  obtain ⟨c, hc⟩ := firstPerTid_mem_src (speciesCursor rows) [] nm t h
  have := (sortByLe_mem leTidCnt (groupCounts (speciesPairs rows)) _).mp hc
  exact (groupCounts_mem (speciesPairs rows) (nm, t) c this).1

theorem species_data_pairwise (rows : List SrcResource)
    (hsep : ∀ p ∈ speciesPairs rows, ∀ q ∈ speciesPairs rows, p.1 = q.1 → p.2 = q.2) :
    List.Pairwise (fun p q : String × Int => p.1 ≠ q.1 ∧ p.2 ≠ q.2) (species_data rows) := by
  refine List.Pairwise.imp_of_mem ?_ (firstPerTid_tids_pairwise (speciesCursor rows) [])
  intro p q hp hq htid
  refine ⟨?_, htid⟩
  intro hname
  obtain ⟨pn, pt⟩ := p
  obtain ⟨qn, qt⟩ := q
  exact htid (hsep (pn, pt) (species_data_mem_pairs rows pn pt hp) (qn, qt)
    (species_data_mem_pairs rows qn qt hq) hname)

theorem filter_tid_singleton (entries : List (String × Int)) (t : Int) :
    List.Pairwise (fun p q : String × Int => p.2 ≠ q.2) entries →
    ∀ nm, (nm, t) ∈ entries →
    (entries.filter (fun p => decide (p.2 = t))).length = 1 := by
  induction entries with
  | nil => intro _ nm hm; cases hm
  | cons e rest ih =>
    obtain ⟨en, et⟩ := e
    intro hp nm hm
    rcases List.pairwise_cons.mp hp with ⟨hh, ht⟩
    simp only [List.filter_cons]
    by_cases hetq : et = t
    · rw [if_pos (by simpa using hetq)]
      have hrest : rest.filter (fun p => decide (p.2 = t)) = [] := by
        rw [List.filter_eq_nil_iff]
        intro p hp2
        have := hh p hp2
        simp only [decide_eq_true_eq]
        intro hq
        exact this (by simpa [hq] using hetq)
      rw [hrest]
      rfl
    · rw [if_neg (by simpa using hetq)]
      cases hm with
      | head => exact absurd rfl hetq
      | tail _ hq => exact ih ht nm hq

/-- C5.  When a taxonomy id appears with several spellings and one
spelling is strictly most frequent, species extraction from an empty
target creates exactly one Species row for that taxonomy id and its
canonical scientific name is the most frequent spelling.  The separation
hypothesis says each spelling string belongs to a single taxonomy id, the
setting of the claim. -/
theorem species_collapse_canonical (rows : List SrcResource) (n : String) (t : Int)
    (hsep : ∀ p ∈ speciesPairs rows, ∀ q ∈ speciesPairs rows, p.1 = q.1 → p.2 = q.2)
    (hmem : (n, t) ∈ speciesPairs rows)
    (htwo : ∃ m, (m, t) ∈ speciesPairs rows ∧ m ≠ n)
    (hmax : ∀ m, (m, t) ∈ speciesPairs rows → m ≠ n →
      countOcc (m, t) (speciesPairs rows) < countOcc (n, t) (speciesPairs rows)) :
    ∃ st c, extract_and_create_species emptyStore emptyCaches rows = .ok (st, c)
      ∧ (st.species.filter (fun r => decide (r.taxonomy_id = t))).length = 1
      ∧ ∀ r ∈ st.species, r.taxonomy_id = t → r.scientific_name = n := by
  have hdist := species_data_pairwise rows hsep
  have hloop := speciesLoop_all_new (species_data rows) emptyStore emptyCaches
    (by intro p _; rfl) (by intro p _; rfl) (by intro p _ r hr; cases hr) hdist rfl
  refine ⟨_, _, hloop, ?_, ?_⟩
  · simp only [emptyStore, List.nil_append, List.length_nil]
    rw [mkSpeciesRows_filter_tid]
    have hmemgc := groupCounts_complete (speciesPairs rows) (n, t) hmem
    have hmemcur := (sortByLe_mem leTidCnt (groupCounts (speciesPairs rows))
      ((n, t), countOcc (n, t) (speciesPairs rows))).mpr hmemgc
    obtain ⟨nm', hnm'⟩ := firstPerTid_complete (speciesCursor rows) [] n t _ hmemcur rfl
    exact filter_tid_singleton (species_data rows) t
      (List.Pairwise.imp_of_mem (fun _ _ hr => hr.2) hdist) nm' hnm'
  · intro r hr hrt
    simp only [emptyStore, List.nil_append, List.length_nil] at hr
    have hpair := mkSpeciesRows_pairs (species_data rows) 0 r hr
    rw [hrt] at hpair
    by_contra hne
    have hsorted := sortByLe_pairwise leTidCnt leTidCnt_total leTidCnt_trans
      (groupCounts (speciesPairs rows))
    obtain ⟨c, hcmem, hcmax⟩ := firstPerTid_max (speciesCursor rows) [] r.scientific_name t
      hsorted hpair
    have hcc := (groupCounts_mem (speciesPairs rows) _ c
      ((sortByLe_mem leTidCnt _ _).mp hcmem))
    have hmemgc := groupCounts_complete (speciesPairs rows) (n, t) hmem
    have hmemcur := (sortByLe_mem leTidCnt (groupCounts (speciesPairs rows))
      ((n, t), countOcc (n, t) (speciesPairs rows))).mpr hmemgc
    have hle := hcmax n (countOcc (n, t) (speciesPairs rows)) hmemcur
    have hlt := hmax r.scientific_name hcc.1 hne
    rw [hcc.2] at hle
    omega

/-- Witness for C5 on the concrete snapshot c8Rows: taxonomy id 9606
appears as Homo sapiens three times and Homo Sapiens twice. -/
theorem species_collapse_canonical_witness :
    ∃ st c, extract_and_create_species emptyStore emptyCaches c8Rows = .ok (st, c)
      ∧ (st.species.filter (fun r => decide (r.taxonomy_id = 9606))).length = 1
      ∧ ∀ r ∈ st.species, r.taxonomy_id = 9606 → r.scientific_name = "Homo sapiens" := by
  refine species_collapse_canonical c8Rows "Homo sapiens" 9606 (by decide) (by decide)
    ⟨"Homo Sapiens", by decide, by decide⟩ ?_
  intro m hm hne
  rw [show speciesPairs c8Rows = [("Homo Sapiens", (9606 : Int)), ("Homo Sapiens", 9606),
    ("Homo sapiens", 9606), ("Homo sapiens", 9606), ("Homo sapiens", 9606)] from rfl] at hm
  simp only [List.mem_cons, List.not_mem_nil, or_false, Prod.mk.injEq, and_true] at hm
  rcases hm with h | h | h | h | h <;> subst h
  · decide
  · decide
  · exact absurd rfl hne
  · exact absurd rfl hne
  · exact absurd rfl hne

/-- Characterization of the genome creation loop on pairs that are not yet
cached: pairs whose species name is uncached are skipped, the others are
inserted once each, keyed by the cached species id. -/
theorem genomesLoop_char (pairs : List (String × String)) :
    ∀ st c,
      List.Pairwise (fun p q : String × String => p ≠ q) pairs →
      (∀ a b i, dictGet c.species_cache a = some i →
        dictGet c.species_cache b = some i → a = b) →
      (∀ p ∈ pairs, dictGet c.genome_cache p = none) →
      (∀ p ∈ pairs, ∀ sid, dictGet c.species_cache p.1 = some sid →
        findGenomeByKey st.genomes sid p.2 = none) →
      genomesCheckB st = true →
      ∃ st' c', genomesLoop st c pairs = .ok (st', c')
        ∧ genomesCheckB st' = true
        ∧ c'.species_cache = c.species_cache
        ∧ st'.species = st.species
        ∧ (∀ g ∈ st.genomes, g ∈ st'.genomes)
        ∧ (∀ p ∈ pairs, ∀ sid, dictGet c.species_cache p.1 = some sid →
            ∃ g ∈ st'.genomes, g.species_id = sid ∧ g.genome_build = p.2)
        ∧ (∀ key : String × String, dictGet c.genome_cache key = none →
            dictGet c.species_cache key.1 = none → dictGet c'.genome_cache key = none) := by
  induction pairs with
  | nil =>
    intro st c _ _ _ _ hchk
    refine ⟨st, c, ?_, hchk, rfl, rfl, fun g hg => hg, ?_, ?_⟩
    · simp [genomesLoop]
    · intro p hp; cases hp
    · intro key h1 _; exact h1
  | cons p rest ih =>
    obtain ⟨s, gb⟩ := p
    intro st c hpw hinj hgc hfind hchk
    rcases List.pairwise_cons.mp hpw with ⟨hh, ht⟩
    have hgc0 : dictGet c.genome_cache (s, gb) = none := hgc (s, gb) (List.mem_cons_self _ _)
    simp only [genomesLoop, hgc0, Option.isSome_none, Bool.not_false, if_true]
    cases hsc : dictGet c.species_cache s with
    | none =>
      obtain ⟨st', c', hrun, hchk', hsc', hsp', hmono, hex, hpres⟩ :=
        ih st c ht hinj (fun q hq => hgc q (List.mem_cons_of_mem _ hq))
          (fun q hq => hfind q (List.mem_cons_of_mem _ hq)) hchk
      refine ⟨st', c', hrun, hchk', hsc', hsp', hmono, ?_, hpres⟩
      intro q hq sid hsid
      cases hq with
      | head =>
        rw [hsc] at hsid
        cases hsid
      | tail _ hq2 => exact hex q hq2 sid hsid
    | some sid =>
      have hf0 : findGenomeByKey st.genomes sid gb = none :=
        hfind (s, gb) (List.mem_cons_self _ _) sid hsc
      dsimp only
      rw [hf0]
      dsimp only
      have hrowchk : genomesCheckB
          { st with genomes := st.genomes ++ [⟨st.genomes.length + 1, sid, gb⟩] } = true := by
        refine genomesCheckB_snoc st _ hchk ?_
        intro g hg
        exact (findGenomeByKey_none_iff st.genomes sid gb).mp hf0 g hg
      rw [if_pos hrowchk]
      have hrec := ih { st with genomes := st.genomes ++ [⟨st.genomes.length + 1, sid, gb⟩] }
        { c with genome_cache := dictSet c.genome_cache (s, gb) (st.genomes.length + 1) }
        ht hinj
        (by
          intro q hq
          rw [dictGet_dictSet_ne c.genome_cache (s, gb) q _ (hh q hq)]
          exact hgc q (List.mem_cons_of_mem _ hq))
        (by
          intro q hq sid' hsid'
          refine findGenomeByKey_append_none st.genomes _ sid' q.2
            (hfind q (List.mem_cons_of_mem _ hq) sid' hsid') ?_
          intro ⟨he1, he2⟩
          have hs1 : sid = sid' := he1
          have hqs : q.1 = s := hinj q.1 s sid' hsid' (hs1 ▸ hsc)
          have : q = (s, gb) := by
            obtain ⟨q1, q2⟩ := q
            simp only at hqs he2
            rw [hqs, he2.symm]
          exact hh q hq this.symm)
        hrowchk
      obtain ⟨st', c', hrun, hchk', hsc', hsp', hmono, hex, hpres⟩ := hrec
      refine ⟨st', c', hrun, hchk', hsc', hsp', ?_, ?_, ?_⟩
      · intro g hg
        exact hmono g (List.mem_append.mpr (Or.inl hg))
      · intro q hq sid' hsid'
        cases hq with
        | head =>
          have hsid2 : sid' = sid := by
            rw [hsc] at hsid'
            cases hsid'
            rfl
          refine ⟨⟨st.genomes.length + 1, sid, gb⟩, ?_, by rw [hsid2], rfl⟩
          exact hmono _ (List.mem_append.mpr (Or.inr (List.mem_cons_self _ _)))
        | tail _ hq2 => exact hex q hq2 sid' hsid'
      · intro key h1 h2
        have hkey : key ≠ (s, gb) := by
          intro hq
          rw [hq] at h2
          simp only at h2
          rw [h2] at hsc
          cases hsc
        refine hpres key ?_ h2
        rw [dictGet_dictSet_ne c.genome_cache (s, gb) key _ (fun hq => hkey hq.symm)]
        exact h1

theorem dedupFirstGo_not_seen [DecidableEq α] (l : List α) :
    ∀ seen a, a ∈ dedupFirstGo seen l → memB a seen = false := by
  induction l with
  | nil => intro seen a h; cases h
  | cons x t ih =>
    intro seen a h
    simp only [dedupFirstGo] at h
    by_cases hx : memB x seen
    · rw [if_pos hx] at h
      exact ih seen a h
    · rw [if_neg hx] at h
      cases h with
      | head => exact (memB_false_iff _ _).mpr (fun hm => hx ((memB_iff _ _).mpr hm))
      | tail _ hq =>
        have := ih (x :: seen) a hq
        simp only [memB] at this
        by_cases hxa : x = a
        · rw [if_pos hxa] at this
          cases this
        · rw [if_neg hxa] at this
          exact this

theorem dedupFirstGo_nodup [DecidableEq α] (l : List α) :
    ∀ seen, List.Pairwise (fun a b : α => a ≠ b) (dedupFirstGo seen l) := by
  induction l with
  | nil => intro seen; exact List.Pairwise.nil
  | cons x t ih =>
    intro seen
    simp only [dedupFirstGo]
    by_cases hx : memB x seen
    · rw [if_pos hx]
      exact ih seen
    · rw [if_neg hx]
      refine List.pairwise_cons.mpr ⟨?_, ih (x :: seen)⟩
      intro b hb hxb
      have := dedupFirstGo_not_seen t (x :: seen) b hb
      rw [← hxb] at this
      simp only [memB, if_pos rfl] at this
      cases this

theorem insertLe_perm (le : α → α → Bool) (a : α) (l : List α) :
    List.Perm (insertLe le a l) (a :: l) := by
  induction l with
  | nil => exact List.Perm.refl _
  | cons b t ih =>
    simp only [insertLe]
    by_cases hb : le b a
    · rw [if_pos hb]
      exact (ih.cons b).trans (List.Perm.swap a b t)
    · rw [if_neg hb]

theorem sortByLe_perm (le : α → α → Bool) (l : List α) :
    List.Perm (sortByLe le l) l := by
  suffices h : ∀ acc, List.Perm (l.foldl (fun acc a => insertLe le a acc) acc) (l ++ acc) by
    simpa [sortByLe] using h []
  induction l with
  | nil => intro acc; simp
  | cons b t ih =>
    intro acc
    simp only [List.foldl_cons, List.cons_append]
    refine (ih (insertLe le b acc)).trans ?_
    refine (List.Perm.append_left t (insertLe_perm le b acc)).trans ?_
    exact List.perm_middle

theorem sortByLe_pairwise_ne [DecidableEq α] (le : α → α → Bool) (l : List α)
    (h : List.Pairwise (fun a b : α => a ≠ b) l) :
    List.Pairwise (fun a b : α => a ≠ b) (sortByLe le l) := by
  have hn : l.Nodup := h
  exact ((sortByLe_perm le l).nodup_iff).mpr hn

theorem filter_key_le_one [DecidableEq κ] (f : α → κ) (l : List α)
    (h : dupFree (l.map f) = true) (k : κ) :
    (l.filter (fun x => decide (f x = k))).length ≤ 1 := by
  induction l with
  | nil => simp
  | cons x t ih =>
    simp only [List.map_cons, dupFree, Bool.and_eq_true, Bool.not_eq_true'] at h
    simp only [List.filter_cons]
    by_cases hx : f x = k
    · rw [if_pos (by simpa using hx)]
      have ht : t.filter (fun y => decide (f y = k)) = [] := by
        rw [List.filter_eq_nil_iff]
        intro y hy
        simp only [decide_eq_true_eq]
        intro hq
        have hmem : f x ∈ t.map f := List.mem_map.mpr ⟨y, hy, by rw [hq, hx]⟩
        exact (memB_false_iff _ _).mp h.1 hmem
      rw [ht]
      simp
    · rw [if_neg (by simpa using hx)]
      exact ih h.2

theorem mkSpeciesRows_complete (entries : List (String × Int)) :
    ∀ n nm t, (nm, t) ∈ entries →
    ∃ row ∈ mkSpeciesRows n entries, row.scientific_name = nm ∧ row.taxonomy_id = t := by
  induction entries with
  | nil => intro n nm t h; cases h
  | cons e rest ih =>
    obtain ⟨nm₀, t₀⟩ := e
    intro n nm t h
    cases h with
    | head => exact ⟨⟨n + 1, nm₀, t₀⟩, List.mem_cons_self _ _, rfl, rfl⟩
    | tail _ hq =>
      obtain ⟨row, hr, h1, h2⟩ := ih (n + 1) nm t hq
      exact ⟨row, List.mem_cons_of_mem _ hr, h1, h2⟩

theorem one_le_filter_of_mem (p : α → Bool) (l : List α) (x : α)
    (hx : x ∈ l) (hp : p x = true) : 1 ≤ (l.filter p).length := by
  have : x ∈ l.filter p := List.mem_filter.mpr ⟨hx, hp⟩
  exact List.length_pos.mpr (fun hq => by rw [hq] at this; cases this)

theorem rowToResource_fields (c : Caches) (hub : Nat) (rmap : List (Int × Nat))
    (now : PyDateTime) (r : SrcResource) (res : ResourceRow)
    (h : rowToResource c hub rmap now r = .ok res) :
    res.species_id = (match r.species with
      | some s => dictGet c.species_cache s
      | none => none)
    ∧ res.genome_id = (if strTruthy r.species && strTruthy r.genome then
        dictGet c.genome_cache (r.species.getD "", r.genome.getD "") else none) := by
  simp only [rowToResource] at h
  cases h1 : parseDateOrNow r.rdatadateadded now with
  | error e =>
    rw [h1] at h
    cases h
  | ok d1 =>
    rw [h1] at h
    cases h2 : parseDateOrNone r.rdatadateremoved with
    | error e =>
      rw [h2] at h
      cases h
    | ok d3 =>
      rw [h2] at h
      cases h
      exact ⟨rfl, rfl⟩

/-- Shared characterization of species extraction followed by genome
extraction from an empty target store. -/
theorem speciesGenomesPhase_char (rows : List SrcResource)
    (hsep : ∀ p ∈ speciesPairs rows, ∀ q ∈ speciesPairs rows, p.1 = q.1 → p.2 = q.2) :
    ∃ st c, (do
        let (st1, c1) ← extract_and_create_species emptyStore emptyCaches rows
        extract_and_create_genomes st1 c1 rows) = Except.ok (st, c)
      ∧ c.species_cache = mkCachePairs 0 (species_data rows)
      ∧ st.species = mkSpeciesRows 0 (species_data rows)
      ∧ genomesCheckB st = true
      ∧ (∀ p ∈ genomePairs rows, ∀ sid,
          dictGet (mkCachePairs 0 (species_data rows)) p.1 = some sid →
          ∃ g ∈ st.genomes, g.species_id = sid ∧ g.genome_build = p.2)
      ∧ (∀ key : String × String,
          dictGet (mkCachePairs 0 (species_data rows)) key.1 = none →
          dictGet c.genome_cache key = none) := by
  have hdist := species_data_pairwise rows hsep
  have hloop := speciesLoop_all_new (species_data rows) emptyStore emptyCaches
    (by intro p _; rfl) (by intro p _; rfl) (by intro p _ r hr; cases hr) hdist rfl
  have hfstpw : List.Pairwise (fun p q : String × Int => p.1 ≠ q.1) (species_data rows) :=
    List.Pairwise.imp (fun h => h.1) hdist
  have hck : cacheKeysWith emptyCaches.species_cache emptyStore.species.length
      (species_data rows) = mkCachePairs 0 (species_data rows) := by
    rw [cacheKeysWith_eq_append (species_data rows) emptyCaches.species_cache
      emptyStore.species.length (by intro p _; rfl) hfstpw]
    rfl
  have hppw : List.Pairwise (fun p q : String × String => p ≠ q) (genomePairs rows) :=
    sortByLe_pairwise_ne lePairStr _ (dedupFirstGo_nodup _ [])
  obtain ⟨st', c', hrun, hchk', hsc', hsp', hmono, hex, hpres⟩ :=
    genomesLoop_char (genomePairs rows)
      { emptyStore with
          species := emptyStore.species
            ++ mkSpeciesRows emptyStore.species.length (species_data rows) }
      { emptyCaches with
          species_cache := cacheKeysWith emptyCaches.species_cache
            emptyStore.species.length (species_data rows) }
      hppw
      (by
        intro a b i ha hb
        dsimp only at ha hb
        rw [hck] at ha hb
        exact mkCachePairs_inj (species_data rows) 0 a b i ha hb)
      (by intro p _; rfl)
      (by intro p _ sid _; rfl)
      rfl
  refine ⟨st', c', ?_, ?_, ?_, hchk', ?_, ?_⟩
  · rw [show extract_and_create_species emptyStore emptyCaches rows = _ from hloop]
    exact hrun
  · rw [hsc']
    exact hck
  · exact hsp'
  · intro p hp sid hsid
    refine hex p hp sid ?_
    dsimp only
    rw [hck]
    exact hsid
  · intro key h2
    refine hpres key rfl ?_
    dsimp only
    rw [hck]
    exact h2

/-- C8: genome extraction creates at most one Genome row per
(species-name, genome-build) pair, and exactly one precisely when that
species name made it into the species cache; a shared pair whose spelling
is non-canonical yields zero rows (see genome_shared_pair_creates_no_row),
so the unconditional exactly-one reading fails. -/
theorem genome_extraction_at_most_one (rows : List SrcResource)
    (hsep : ∀ p ∈ speciesPairs rows, ∀ q ∈ speciesPairs rows, p.1 = q.1 → p.2 = q.2) :
    ∃ st c, (do
        let (st1, c1) ← extract_and_create_species emptyStore emptyCaches rows
        extract_and_create_genomes st1 c1 rows) = Except.ok (st, c)
      ∧ (∀ nm gb, (genomeRowsFor st c nm gb).length ≤ 1)
      ∧ (∀ p ∈ genomePairs rows, (dictGet c.species_cache p.1).isSome = true →
          (genomeRowsFor st c p.1 p.2).length = 1) := by
  obtain ⟨st, c, hrun, hcache, _hspecies, hchk, hex, _⟩ := speciesGenomesPhase_char rows hsep
  have hchk2 : dupFree (st.genomes.map (fun g => (g.species_id, g.genome_build))) = true := hchk
  refine ⟨st, c, hrun, ?_, ?_⟩
  · intro nm gb
    unfold genomeRowsFor
    cases hg : dictGet c.species_cache nm with
    | none => simp
    | some sid =>
      exact filter_key_le_one (fun g => (g.species_id, g.genome_build)) st.genomes hchk2 (sid, gb)
  · intro p hp hsome
    obtain ⟨sid, hsid⟩ := Option.isSome_iff_exists.mp hsome
    have hsid2 : dictGet (mkCachePairs 0 (species_data rows)) p.1 = some sid := by
      rw [← hcache]
      exact hsid
    obtain ⟨g, hg, h1, h2⟩ := hex p hp sid hsid2
    unfold genomeRowsFor
    rw [hsid]
    dsimp only
    have hge := one_le_filter_of_mem
      (fun g => decide ((g.species_id, g.genome_build) = (sid, p.2)))
      st.genomes g hg (by simp [h1, h2])
    have hle := filter_key_le_one (fun g => (g.species_id, g.genome_build)) st.genomes hchk2 (sid, p.2)
    exact Nat.le_antisymm hle hge

theorem genome_extraction_at_most_one_witness :
    (∀ p ∈ speciesPairs c8Rows, ∀ q ∈ speciesPairs c8Rows, p.1 = q.1 → p.2 = q.2)
    ∧ ∃ st c, (do
        let (st1, c1) ← extract_and_create_species emptyStore emptyCaches c8Rows
        extract_and_create_genomes st1 c1 c8Rows) = Except.ok (st, c)
      ∧ (∀ nm gb, (genomeRowsFor st c nm gb).length ≤ 1)
      ∧ (∀ p ∈ genomePairs c8Rows, (dictGet c.species_cache p.1).isSome = true →
          (genomeRowsFor st c p.1 p.2).length = 1) :=
  ⟨by decide, genome_extraction_at_most_one c8Rows (by decide)⟩

/-- C9: a source row whose species spelling is not the canonical one kept
by the name-keyed species cache ends up with no species reference and no
genome reference on its migrated Resource, no Genome row or cache entry
exists for that spelling, yet a Species row for the taxonomy id does exist
in the target. -/
theorem noncanonical_spelling_unresolved (rows : List SrcResource) (r : SrcResource)
    (nm : String) (t : Int) (hub : Nat) (rmap : List (Int × Nat)) (now : PyDateTime)
    (hsep : ∀ p ∈ speciesPairs rows, ∀ q ∈ speciesPairs rows, p.1 = q.1 → p.2 = q.2)
    (hnm : r.species = some nm)
    (hcanon : ∀ p ∈ species_data rows, p.1 ≠ nm)
    (ht : ∃ m, (m, t) ∈ speciesPairs rows) :
    ∃ st c, (do
        let (st1, c1) ← extract_and_create_species emptyStore emptyCaches rows
        extract_and_create_genomes st1 c1 rows) = Except.ok (st, c)
      ∧ dictGet c.species_cache nm = none
      ∧ (∀ gb, dictGet c.genome_cache (nm, gb) = none)
      ∧ (∃ sp ∈ st.species, sp.taxonomy_id = t)
      ∧ (∀ sp ∈ st.species, sp.scientific_name ≠ nm)
      ∧ (∀ res, rowToResource c hub rmap now r = .ok res →
          res.species_id = none ∧ res.genome_id = none) := by
  obtain ⟨st, c, hrun, hcache, hspecies, _hchk, _hex, hpres⟩ := speciesGenomesPhase_char rows hsep
  have hnotin : nm ∉ (species_data rows).map Prod.fst := by
    intro hmem
    obtain ⟨p, hp, hpe⟩ := List.mem_map.mp hmem
    exact hcanon p hp hpe
  have hgetnone : dictGet c.species_cache nm = none := by
    rw [hcache]
    exact mkCachePairs_get_none (species_data rows) 0 nm hnotin
  have hgenome : ∀ gb, dictGet c.genome_cache (nm, gb) = none := by
    intro gb
    exact hpres (nm, gb) (mkCachePairs_get_none (species_data rows) 0 nm hnotin)
  refine ⟨st, c, hrun, hgetnone, hgenome, ?_, ?_, ?_⟩
  · obtain ⟨m, hm⟩ := ht
    have hgc := groupCounts_complete (speciesPairs rows) (m, t) hm
    have hcur : ((m, t), countOcc (m, t) (speciesPairs rows)) ∈ speciesCursor rows :=
      (sortByLe_mem leTidCnt (groupCounts (speciesPairs rows)) _).mpr hgc
    obtain ⟨nm2, hnm2⟩ := firstPerTid_complete (speciesCursor rows) [] m t _ hcur rfl
    obtain ⟨row, hrow, _hr1, hr2⟩ := mkSpeciesRows_complete (species_data rows) 0 nm2 t hnm2
    refine ⟨row, ?_, hr2⟩
    rw [hspecies]
    exact hrow
  · intro sp hsp
    have hmem := mkSpeciesRows_pairs (species_data rows) 0 sp (by rw [← hspecies]; exact hsp)
    exact hcanon _ hmem
  · intro res hres
    obtain ⟨h1, h2⟩ := rowToResource_fields c hub rmap now r res hres
    refine ⟨?_, ?_⟩
    · rw [h1, hnm]
      exact hgetnone
    · rw [h2]
      cases htr : strTruthy r.species && strTruthy r.genome with
      | false =>
        rw [if_neg Bool.false_ne_true]
      | true =>
        rw [if_pos rfl, hnm]
        exact hgenome (r.genome.getD "")

theorem noncanonical_spelling_unresolved_witness :
    (∀ p ∈ speciesPairs c8Rows, ∀ q ∈ speciesPairs c8Rows, p.1 = q.1 → p.2 = q.2)
    ∧ c9Row.species = some "Homo Sapiens"
    ∧ (∀ p ∈ species_data c8Rows, p.1 ≠ "Homo Sapiens")
    ∧ (∃ m, (m, (9606 : Int)) ∈ speciesPairs c8Rows)
    ∧ ∃ st c, (do
        let (st1, c1) ← extract_and_create_species emptyStore emptyCaches c8Rows
        extract_and_create_genomes st1 c1 c8Rows) = Except.ok (st, c)
      ∧ dictGet c.species_cache "Homo Sapiens" = none
      ∧ (∀ gb, dictGet c.genome_cache ("Homo Sapiens", gb) = none)
      ∧ (∃ sp ∈ st.species, sp.taxonomy_id = 9606)
      ∧ (∀ sp ∈ st.species, sp.scientific_name ≠ "Homo Sapiens")
      ∧ (∀ res, rowToResource c 1 [] fixtureNow1 c9Row = .ok res →
          res.species_id = none ∧ res.genome_id = none) :=
  ⟨by decide, rfl, by decide, ⟨"Homo sapiens", by decide⟩,
    noncanonical_spelling_unresolved c8Rows c9Row "Homo Sapiens" 9606 1 [] fixtureNow1
      (by decide) rfl (by decide) ⟨"Homo sapiens", by decide⟩⟩

end HubsMigrate
